import Mathlib

/-!
Shallow embedding of the bulk-upload reconciliation pipeline of the
brokerage intranet repository (files `firestoreService.ts`,
`taxValidationService.ts`, `fileProcessingService.ts`, and the dashboard
`types.ts`).

Modelling conventions:
* JavaScript numbers are modelled as exact rationals (`ℚ`); the validator's
  `typeof`/`isNaN` distinctions are captured by the `JSNum` sum type.
* `Date` values are modelled as natural-number timestamps; all `new Date()`
  calls inside one pipeline invocation stamp the invocation's `now` argument.
* The Firestore document store is an association list from document id to
  document; `writeBatch`/`commit` is modelled as applying the staged write
  operations in staging order (batch commits are issued concurrently in the
  source, but each write is a whole-document `set`, so the per-id last write
  wins either way for the properties proved here).
* `toLowerCase`/`toUpperCase` are modelled with `Char.toLower`/`Char.toUpper`
  (the ASCII case mapping).
-/

set_option maxRecDepth 100000

/-- Status tag of a `ProcessedRecord` (`'success' | 'error' | 'updated'` in `types.ts`). -/
inductive RecordStatus where
  | success
  | error
  | updated
deriving DecidableEq, Repr

/-- Category tag of a `ValidationError` (`'validation' | 'duplicate' | 'format' | 'factorSum'`). -/
inductive ErrType where
  | validation
  | duplicate
  | format
  | factorSum
deriving DecidableEq, Repr

/-- Value sitting in a numeric position of a dynamically typed record: a real
number, the number `NaN`, `undefined`/`null`, or a non-number value. -/
inductive JSNum where
  | num (q : ℚ)
  | nan
  | missing
  | nonNumber
deriving DecidableEq, Repr

/-- Value carried by a `ValidationError` (`value: any` in `types.ts`): the
offending field content, tagged by its shape. -/
inductive ErrVal where
  | undef
  | s (v : String)
  | n (j : JSNum)
  | q (v : ℚ)
deriving DecidableEq, Repr

/-- Embeds `ValidationError` from `types.ts`. -/
structure ValidationError where
  row : Nat
  field : String
  value : ErrVal
  message : String
  errorType : ErrType
deriving DecidableEq, Repr

/-- Embeds `TaxFactors` from `types.ts`: the twelve numeric factors F8..F19. -/
structure TaxFactors where
  f8 : ℚ
  f9 : ℚ
  f10 : ℚ
  f11 : ℚ
  f12 : ℚ
  f13 : ℚ
  f14 : ℚ
  f15 : ℚ
  f16 : ℚ
  f17 : ℚ
  f18 : ℚ
  f19 : ℚ
deriving DecidableEq, Repr

/-- Factors object as seen by the validator: each slot is a dynamic value
(`data.factors[key]` on an `any`-typed record can be missing or non-numeric). -/
structure DynFactors where
  f8 : JSNum
  f9 : JSNum
  f10 : JSNum
  f11 : JSNum
  f12 : JSNum
  f13 : JSNum
  f14 : JSNum
  f15 : JSNum
  f16 : JSNum
  f17 : JSNum
  f18 : JSNum
  f19 : JSNum
deriving DecidableEq, Repr

/-- Embeds `TaxQualification` from `types.ts` (the fully-formed record shape
written to the store). Timestamps are naturals. -/
structure TaxQualification where
  id : String
  brokerId : String
  instrument : String
  market : String
  period : String
  qualificationType : String
  factors : TaxFactors
  amount : ℚ
  createdAt : Nat
  updatedAt : Nat
  isOfficial : Bool
deriving DecidableEq, Repr

/-- Embeds `Partial<TaxQualification>` as consumed by `sanitizeData` and
`validateTaxQualification`: every field may be absent, and numeric positions
are dynamic values. -/
structure PartialTax where
  brokerId : Option String
  instrument : Option String
  market : Option String
  period : Option String
  qualificationType : Option String
  factors : Option DynFactors
  amount : JSNum
  createdAt : Nat
  updatedAt : Nat
  isOfficial : Bool
deriving DecidableEq, Repr

/-- Embeds `ProcessedRecord` from `types.ts`. -/
structure ProcessedRecord where
  rowNumber : Nat
  data : Option TaxQualification
  status : RecordStatus
  errors : List ValidationError
  isDuplicate : Bool
  existingId : Option String
deriving DecidableEq, Repr

/-- Embeds `BulkUploadResult` from `types.ts`. Wall-clock `processingTime` is
not modelled and is reported as `0`. -/
structure BulkUploadResult where
  totalRecords : Nat
  added : Nat
  updated : Nat
  errors : Nat
  successRecords : List ProcessedRecord
  errorRecords : List ProcessedRecord
  processingTime : Nat
deriving DecidableEq, Repr

/-- Document store: association list from document id to document
(`taxQualifications` collection). -/
abbrev Store := List (String × TaxQualification)

/-- In-memory duplicate-lookup map (`Map<string, TaxQualification>`). -/
abbrev KeyMap := List (String × TaxQualification)

/-- Model of JS `String.prototype.trim`: strip leading and trailing
whitespace (implemented structurally over the character list). -/
def jsTrim (s : String) : String :=
  ⟨(((s.data.dropWhile Char.isWhitespace).reverse.dropWhile Char.isWhitespace).reverse)⟩

/-- Model of JS `String.prototype.toLowerCase` (ASCII case mapping). -/
def jsToLower (s : String) : String :=
  ⟨s.data.map Char.toLower⟩

/-- Model of JS `String.prototype.toUpperCase` (ASCII case mapping). -/
def jsToUpper (s : String) : String :=
  ⟨s.data.map Char.toUpper⟩

/-- Model of `.replace(/\s+/g, '-')`: each maximal run of whitespace becomes a
single hyphen. The flag records whether the previous character was whitespace. -/
def wsRun : Bool → List Char → List Char
  | _, [] => []
  | inRun, c :: cs =>
    if c.isWhitespace then
      if inRun then wsRun true cs else '-' :: wsRun true cs
    else
      c :: wsRun false cs

/-- Model of `.replace(/[^a-z0-9-]/g, '')`: keep only lowercase ASCII letters,
ASCII digits, and hyphens. -/
def stripNonAlnum (l : List Char) : List Char :=
  l.filter fun c => ('a' ≤ c && c ≤ 'z') || ('0' ≤ c && c ≤ '9') || c = '-'

/-- First half of the dedup key: `instrument-market-period` joined by hyphens,
before lowercasing (the template-literal body in `processBulkUpload`). -/
def keyBase (instrument market period : String) : String :=
  instrument ++ "-" ++ market ++ "-" ++ period

/-- Embeds `generateQualificationId` from `firestoreService.ts`: lowercase
`brokerId-instrument-market-period`, whitespace runs to hyphens, and all other
non-`[a-z0-9-]` characters stripped. -/
def generateQualificationId (d : TaxQualification) : String :=
  ⟨stripNonAlnum (wsRun false
    (jsToLower (d.brokerId ++ "-" ++ keyBase d.instrument d.market d.period)).data)⟩

/-- Dedup-lookup key used by `processBulkUpload`:
`` `${instrument}-${market}-${period}`.toLowerCase() ``. -/
def bulkKey (d : TaxQualification) : String :=
  jsToLower (keyBase d.instrument d.market d.period)

/-- Model of `Map.prototype.set` on the lookup map: overwrite the first entry
with the given key, or append a fresh entry. -/
def mapInsert : KeyMap → String → TaxQualification → KeyMap
  | [], k, v => [(k, v)]
  | p :: m, k, v => if p.1 = k then (k, v) :: m else p :: mapInsert m k v

/-- Model of `Map.prototype.get` on the lookup map. -/
def mapGet : KeyMap → String → Option TaxQualification
  | [], _ => none
  | p :: m, k => if p.1 = k then some p.2 else mapGet m k

/-- Model of a whole-document `set` against the store: replace the document at
the id if present, else create it. -/
def storeSet : Store → String → TaxQualification → Store
  | [], id, d => [(id, d)]
  | p :: s, id, d => if p.1 = id then (id, d) :: s else p :: storeSet s id d

/-- Model of reading a document by id. -/
def storeGet : Store → String → Option TaxQualification
  | [], _ => none
  | p :: s, id => if p.1 = id then some p.2 else storeGet s id

/-- Result of the one-shot `where('brokerId','==',brokerId)` query, with
`fromFirestoreFormat` stamping each document's `id` field from its store key. -/
def snapshot (s : Store) (brokerId : String) : List TaxQualification :=
  (s.filter fun p => p.2.brokerId = brokerId).map fun p => { p.2 with id := p.1 }

/-- The in-memory duplicate map built in `processBulkUpload` step 1: fold the
broker's snapshot into a map keyed by `bulkKey`. -/
def existingMapFor (s : Store) (brokerId : String) : KeyMap :=
  (snapshot s brokerId).foldl (fun m d => mapInsert m (bulkKey d) d) []

/-- Raw cell value of a parsed upload file (`string | number` in `FileRow`,
plus `boolean` for `es_oficial`, plus an absent cell). -/
inductive Cell where
  | s (v : String)
  | n (q : ℚ)
  | b (v : Bool)
  | missing
deriving DecidableEq, Repr

/-- Numeric value of the digit list `cs` read in base 10. -/
def natOfDigits (cs : List Char) : Nat :=
  cs.foldl (fun n c => n * 10 + (c.toNat - 48)) 0

/-- Model of JS `parseFloat`: skip leading whitespace, optional sign, decimal
mantissa, optional exponent; `none` models `NaN` (no valid numeric prefix).
The special literal `Infinity` is not modelled (no claim involves it). -/
def parseFloatQ (s : String) : Option ℚ :=
  let cs := s.data.dropWhile Char.isWhitespace
  let sgn : ℚ := match cs with
    | '-' :: _ => -1
    | _ => 1
  let cs := match cs with
    | '-' :: rest => rest
    | '+' :: rest => rest
    | _ => cs
  let intDigits := cs.takeWhile Char.isDigit
  let cs := cs.drop intDigits.length
  let fracDigits := match cs with
    | '.' :: rest => rest.takeWhile Char.isDigit
    | _ => []
  let cs := match cs with
    | '.' :: rest => rest.drop fracDigits.length
    | _ => cs
  if intDigits.isEmpty && fracDigits.isEmpty then none
  else
    let mantissa : ℚ :=
      sgn * ((natOfDigits intDigits : ℚ) + (natOfDigits fracDigits : ℚ) / (10 ^ fracDigits.length))
    let expPart : Int := match cs with
      | 'e' :: rest | 'E' :: rest =>
        let esgn : Int := match rest with
          | '-' :: _ => -1
          | _ => 1
        let rest := match rest with
          | '-' :: r => r
          | '+' :: r => r
          | _ => rest
        let expDigits := rest.takeWhile Char.isDigit
        if expDigits.isEmpty then 0 else esgn * (natOfDigits expDigits : Int)
      | _ => 0
    some (mantissa * (10 : ℚ) ^ expPart)

/-- Model of `value.replace(',', '.')` (a string pattern replaces only the
first occurrence in JS). -/
def replaceFirstCommaL : List Char → List Char
  | [] => []
  | c :: cs => if c = ',' then '.' :: cs else c :: replaceFirstCommaL cs

/-- Embeds the `parseNumber` closure of `rowToTaxQualification` in
`fileProcessingService.ts`: numbers pass through, strings get their first comma
replaced by a dot and are `parseFloat`ed with fallback `0`, everything else
becomes `0`. -/
def parseNumber : Cell → ℚ
  | .n q => q
  | .s v => (parseFloatQ ⟨replaceFirstCommaL v.data⟩).getD 0
  | _ => 0

/-- Model of `Number.prototype.toFixed(4)` (round to nearest, ties away from
zero toward larger `n`, as in the ECMAScript algorithm). Used only inside the
factor-sum error message. -/
def toFixed4 (q : ℚ) : String :=
  let scaled : Int := ⌊q * 10000 + 1 / 2⌋
  let n : Nat := scaled.natAbs
  let ip : Nat := n / 10000
  let fp : Nat := n % 10000
  let fs : String := toString fp
  let pad : String := ⟨List.replicate (4 - fs.length) '0'⟩
  (if scaled < 0 then "-" else "") ++ toString ip ++ "." ++ pad ++ fs

/-- Result record of `validateFactorsSum` in `taxValidationService.ts`. -/
structure FactorsSumCheck where
  isValid : Bool
  sum : ℚ
  error : Option String
deriving DecidableEq, Repr

/-- Embeds `validateFactorsSum`: the twelve factors must sum to at most 1. -/
def validateFactorsSum (factors : TaxFactors) : FactorsSumCheck :=
  let sum := factors.f8 + factors.f9 + factors.f10 + factors.f11 +
    factors.f12 + factors.f13 + factors.f14 + factors.f15 +
    factors.f16 + factors.f17 + factors.f18 + factors.f19
  let isValid : Bool := decide (sum ≤ 1)
  { isValid := isValid
    sum := sum
    error := if isValid then none
      else some ("La suma de los factores (" ++ toFixed4 sum ++
        ") supera el límite permitido de 1 (100%)") }

/-- The `factorKeys` array of `validateTaxQualification`. -/
def factorKeys : List String :=
  ["f8", "f9", "f10", "f11", "f12", "f13", "f14", "f15", "f16", "f17", "f18", "f19"]

/-- Dynamic indexing `data.factors[key]` for the keys iterated by the
validator; an unknown key reads as `undefined`. -/
def factorGet (f : DynFactors) (k : String) : JSNum :=
  if k = "f8" then f.f8 else if k = "f9" then f.f9
  else if k = "f10" then f.f10 else if k = "f11" then f.f11
  else if k = "f12" then f.f12 else if k = "f13" then f.f13
  else if k = "f14" then f.f14 else if k = "f15" then f.f15
  else if k = "f16" then f.f16 else if k = "f17" then f.f17
  else if k = "f18" then f.f18 else if k = "f19" then f.f19
  else .missing

/-- Numeric value of a dynamic slot; models the implicit cast of
`data.factors` to `TaxFactors` at the `validateFactorsSum` call site (the call
is only reached when every slot is a genuine number, so the `0` default never
fires there). -/
def jsNumVal : JSNum → ℚ
  | .num q => q
  | _ => 0

/-- Cast of a dynamic factors object to the numeric `TaxFactors` shape. -/
def dynToFactors (f : DynFactors) : TaxFactors :=
  ⟨jsNumVal f.f8, jsNumVal f.f9, jsNumVal f.f10, jsNumVal f.f11,
   jsNumVal f.f12, jsNumVal f.f13, jsNumVal f.f14, jsNumVal f.f15,
   jsNumVal f.f16, jsNumVal f.f17, jsNumVal f.f18, jsNumVal f.f19⟩

/-- Per-factor validation of `validateTaxQualification`: required, numeric
(`typeof`/`isNaN`), and in range `[0,1]`, in source order. -/
def checkFactor (rowNumber : Nat) (f : DynFactors) (k : String) : List ValidationError :=
  match factorGet f k with
  | .missing =>
    [⟨rowNumber, k, .n .missing, "El factor " ++ jsToUpper k ++ " es requerido", .validation⟩]
  | .nan =>
    [⟨rowNumber, k, .n .nan, "El factor " ++ jsToUpper k ++ " debe ser un número válido", .format⟩]
  | .nonNumber =>
    [⟨rowNumber, k, .n .nonNumber, "El factor " ++ jsToUpper k ++ " debe ser un número válido", .format⟩]
  | .num q =>
    if q < 0 ∨ 1 < q then
      [⟨rowNumber, k, .n (.num q), "El factor " ++ jsToUpper k ++ " debe estar entre 0 y 1", .validation⟩]
    else []

/-- Truth of `!field || field.trim() === ''` on an optional string field. -/
def blankStr : Option String → Bool
  | none => true
  | some s => jsTrim s == ""

/-- The `value` put into a `ValidationError` for an optional string field. -/
def optStrVal : Option String → ErrVal
  | none => .undef
  | some s => .s s

/-- Amount checks of `validateTaxQualification` (required, then non-negative);
`NaN < 0` is false in JS, so a `NaN` amount yields no error here. -/
def amountErrors (d : PartialTax) (rowNumber : Nat) : List ValidationError :=
  match d.amount with
  | .missing =>
    [⟨rowNumber, "amount", .n .missing, "El campo monto es requerido", .validation⟩]
  | .num q =>
    if q < 0 then
      [⟨rowNumber, "amount", .n (.num q), "El monto no puede ser negativo", .validation⟩]
    else []
  | .nan => []
  | .nonNumber => []

/-- Required-field block of `validateTaxQualification` (instrument, market,
period, qualificationType, amount), pushed in source order. -/
def requiredErrors (d : PartialTax) (rowNumber : Nat) : List ValidationError :=
  (if blankStr d.instrument then
    [⟨rowNumber, "instrument", optStrVal d.instrument, "El campo instrumento es requerido", .validation⟩]
  else []) ++
  (if blankStr d.market then
    [⟨rowNumber, "market", optStrVal d.market, "El campo mercado es requerido", .validation⟩]
  else []) ++
  (if blankStr d.period then
    [⟨rowNumber, "period", optStrVal d.period, "El campo período es requerido", .validation⟩]
  else []) ++
  (if blankStr d.qualificationType then
    [⟨rowNumber, "qualificationType", optStrVal d.qualificationType,
      "El campo tipo de calificación es requerido", .validation⟩]
  else []) ++
  amountErrors d rowNumber

/-- Per-factor block: the `for (const key of factorKeys)` loop. -/
def factorErrors (rowNumber : Nat) (f : DynFactors) : List ValidationError :=
  (factorKeys.map (checkFactor rowNumber f)).flatten

/-- Embeds `validateTaxQualification` from `taxValidationService.ts`. -/
def validateTaxQualification (d : PartialTax) (rowNumber : Nat) : List ValidationError :=
  let errors := requiredErrors d rowNumber
  match d.factors with
  | none =>
    errors ++ [⟨rowNumber, "factors", .undef, "Los factores tributarios son requeridos", .validation⟩]
  | some f =>
    let errors := errors ++ factorErrors rowNumber f
    if errors.isEmpty || !(errors.any fun e => factorKeys.contains e.field) then
      let validation := validateFactorsSum (dynToFactors f)
      if validation.isValid then errors
      else errors ++ [⟨rowNumber, "factors", .q validation.sum,
        validation.error.getD "La suma de factores supera el 100%", .factorSum⟩]
    else errors

/-- Embeds `validatePeriodFormat`: the three regular expressions
`^\d{4}-Q[1-4]$`, `^\d{4}-(0[1-9]|1[0-2])$`, `^\d{4}$` as shape checks. -/
def validatePeriodFormat (period : String) : Bool :=
  let quarterPattern : Bool := match period.data with
    | [a, b, c, d, '-', 'Q', q'] =>
      a.isDigit && b.isDigit && c.isDigit && d.isDigit && decide ('1' ≤ q') && decide (q' ≤ '4')
    | _ => false
  let monthPattern : Bool := match period.data with
    | [a, b, c, d, '-', m1, m2] =>
      a.isDigit && b.isDigit && c.isDigit && d.isDigit &&
        ((m1 == '0' && decide ('1' ≤ m2) && decide (m2 ≤ '9')) ||
         (m1 == '1' && decide ('0' ≤ m2) && decide (m2 ≤ '2')))
    | _ => false
  let yearPattern : Bool := match period.data with
    | [a, b, c, d] => a.isDigit && b.isDigit && c.isDigit && d.isDigit
    | _ => false
  quarterPattern || monthPattern || yearPattern

/-- String-field branch of `sanitizeData`: a string is trimmed, anything else
becomes the empty string. -/
def sanStr : Option String → Option String
  | some s => some (jsTrim s)
  | none => some ""

/-- Embeds `sanitizeData` from `taxValidationService.ts`. The factors object
is passed through untouched (only spread). `isOfficial` is already a `Bool` in
the model, so the `=== true || === 'true'` coercion is the identity here. -/
def sanitizeData (d : PartialTax) : PartialTax :=
  { d with
    instrument := sanStr d.instrument
    market := sanStr d.market
    period := sanStr d.period
    qualificationType := sanStr d.qualificationType
    amount := match d.amount with
      | .num q => .num q
      | .nan => .nan
      | _ => .num 0
    isOfficial := d.isOfficial }

/-- One parsed row of the upload file (the `FileRow` interface); string
columns hold strings or are absent, numeric columns hold arbitrary cells. -/
structure FileRow where
  instrumento : Option String
  mercado : Option String
  periodo : Option String
  tipo_calificacion : Option String
  f8 : Cell
  f9 : Cell
  f10 : Cell
  f11 : Cell
  f12 : Cell
  f13 : Cell
  f14 : Cell
  f15 : Cell
  f16 : Cell
  f17 : Cell
  f18 : Cell
  f19 : Cell
  monto : Cell
  es_oficial : Cell
deriving DecidableEq, Repr

/-- Value of `String(field || '').trim()` on an optional string cell. -/
def cellStr (o : Option String) : String :=
  jsTrim (o.getD "")

/-- The `factors` object built by `rowToTaxQualification`: every slot is the
parsed number of the corresponding cell. -/
def rowDynFactors (row : FileRow) : DynFactors :=
  { f8 := .num (parseNumber row.f8), f9 := .num (parseNumber row.f9)
    f10 := .num (parseNumber row.f10), f11 := .num (parseNumber row.f11)
    f12 := .num (parseNumber row.f12), f13 := .num (parseNumber row.f13)
    f14 := .num (parseNumber row.f14), f15 := .num (parseNumber row.f15)
    f16 := .num (parseNumber row.f16), f17 := .num (parseNumber row.f17)
    f18 := .num (parseNumber row.f18), f19 := .num (parseNumber row.f19) }

/-- Embeds `rowToTaxQualification` from `fileProcessingService.ts`. -/
def rowToTaxQualification (row : FileRow) (brokerId : String) (now : Nat) : PartialTax :=
  { brokerId := some brokerId
    instrument := some (cellStr row.instrumento)
    market := some (cellStr row.mercado)
    period := some (cellStr row.periodo)
    qualificationType := some (cellStr row.tipo_calificacion)
    factors := some (rowDynFactors row)
    amount := .num (parseNumber row.monto)
    isOfficial := row.es_oficial == .s "true" || row.es_oficial == .b true || row.es_oficial == .s "1"
    createdAt := now
    updatedAt := now }

/-- Models the `sanitized as TaxQualification` cast of the row pipeline; the
defaults never fire on a record that passed validation. -/
def toTaxQualification (d : PartialTax) : TaxQualification :=
  { id := ""
    brokerId := d.brokerId.getD ""
    instrument := d.instrument.getD ""
    market := d.market.getD ""
    period := d.period.getD ""
    qualificationType := d.qualificationType.getD ""
    factors := dynToFactors (d.factors.getD
      ⟨.missing, .missing, .missing, .missing, .missing, .missing,
       .missing, .missing, .missing, .missing, .missing, .missing⟩)
    amount := jsNumVal d.amount
    createdAt := d.createdAt
    updatedAt := d.updatedAt
    isOfficial := d.isOfficial }

/-- Embeds the per-row body of `processCSVFile`: normalize, sanitize,
validate, and produce the `ProcessedRecord` (error rows carry `data: null`). -/
def processRow (row : FileRow) (brokerId : String) (rowNumber : Nat) (now : Nat) : ProcessedRecord :=
  let taxQualification := rowToTaxQualification row brokerId now
  let sanitized := sanitizeData taxQualification
  let validationErrors := validateTaxQualification sanitized rowNumber
  if validationErrors.length > 0 then
    { rowNumber := rowNumber, data := none, status := .error, errors := validationErrors,
      isDuplicate := false, existingId := none }
  else
    { rowNumber := rowNumber, data := some (toTaxQualification sanitized), status := .success,
      errors := [], isDuplicate := false, existingId := none }

/-- One staged write operation of a `writeBatch`: document id and document. -/
abbrev WriteOp := String × TaxQualification

/-- The `BATCH_SIZE = 500` design constant of `processBulkUpload`. -/
def BATCH_SIZE : Nat := 500

/-- Mutable state of the per-record loop of `processBulkUpload`. -/
structure BulkState where
  added : Nat
  updated : Nat
  errors : Nat
  successRecords : List ProcessedRecord
  errorRecords : List ProcessedRecord
  batches : List (List WriteOp)
  currentBatch : List WriteOp
  operationsInBatch : Nat
deriving DecidableEq, Repr

/-- Initial loop state (all counters zero, one fresh empty batch). -/
def initState : BulkState :=
  ⟨0, 0, 0, [], [], [], [], 0⟩

/-- Stage one write on the current batch, then apply the end-of-iteration
check `if (operationsInBatch >= BATCH_SIZE)`: close the batch and start a
fresh one. -/
def pushOp (st : BulkState) (op : WriteOp) : BulkState :=
  let st := { st with
    currentBatch := st.currentBatch ++ [op]
    operationsInBatch := st.operationsInBatch + 1 }
  if st.operationsInBatch ≥ BATCH_SIZE then
    { st with batches := st.batches ++ [st.currentBatch], currentBatch := [], operationsInBatch := 0 }
  else st

/-- Loop body of `processBulkUpload` for one `ProcessedRecord`. The source
guard `record.status === 'error' || !record.data` routes the record to the
error pile; otherwise the in-memory map decides between the update path
(reuse the existing id, keep its `createdAt`, fresh `updatedAt`) and the add
path (derived id, both timestamps fresh, `brokerId` stamped). -/
def bulkStep (m : KeyMap) (brokerId : String) (now : Nat) (st : BulkState)
    (record : ProcessedRecord) : BulkState :=
  match record.data with
  | none =>
    { st with errors := st.errors + 1, errorRecords := st.errorRecords ++ [record] }
  | some d =>
    if record.status = .error then
      { st with errors := st.errors + 1, errorRecords := st.errorRecords ++ [record] }
    else
      match mapGet m (bulkKey d) with
      | some existing =>
        let record' := { record with
                         isDuplicate := true
                         existingId := some (existing.id)
                         status := .updated }
        let updatedData := { d with
                             id := existing.id
                             createdAt := existing.createdAt
                             updatedAt := now }
        pushOp { st with
                 updated := st.updated + 1
                 successRecords := st.successRecords ++ [record'] } (existing.id, updatedData)
      | none =>
        let newId := generateQualificationId d
        let newData := { d with
                         id := newId
                         brokerId := brokerId
                         createdAt := now
                         updatedAt := now }
        pushOp { st with
                 added := st.added + 1
                 successRecords := st.successRecords ++ [record] } (newId, newData)

/-- Step 2 of `processBulkUpload`: fold the loop body over the records. -/
def prepareBulk (m : KeyMap) (brokerId : String) (now : Nat)
    (records : List ProcessedRecord) : BulkState :=
  records.foldl (bulkStep m brokerId now) initState

/-- The committed batch list: closed batches plus the trailing batch when it
holds at least one operation. -/
def bulkBatches (st : BulkState) : List (List WriteOp) :=
  st.batches ++ if st.operationsInBatch > 0 then [st.currentBatch] else []

/-- Every write staged so far, in staging order. -/
def allWrites (st : BulkState) : List WriteOp :=
  st.batches.flatten ++ st.currentBatch

/-- The write a single record contributes, if any (`none` for rows routed to
the error pile). This is the loop body's write decision in isolation. -/
def stagedOp (m : KeyMap) (brokerId : String) (now : Nat)
    (record : ProcessedRecord) : Option WriteOp :=
  match record.data with
  | none => none
  | some d =>
    if record.status = .error then none
    else
      match mapGet m (bulkKey d) with
      | some existing =>
        some (existing.id, { d with
                             id := existing.id
                             createdAt := existing.createdAt
                             updatedAt := now })
      | none =>
        let newId := generateQualificationId d
        some (newId, { d with
                       id := newId
                       brokerId := brokerId
                       createdAt := now
                       updatedAt := now })

/-- Truth of the eligibility guard: the record is neither flagged `error` nor
missing its data, so it reaches the write-staging paths. -/
def eligible (record : ProcessedRecord) : Bool :=
  !(record.status == .error) && record.data.isSome

/-- Step 3 of `processBulkUpload`: commit every batch. Commits are issued
concurrently in the source; each operation is a whole-document `set`, and the
model applies them in staging order. -/
def commitBatches (s : Store) (batches : List (List WriteOp)) : Store :=
  batches.flatten.foldl (fun s op => storeSet s op.1 op.2) s

/-- Embeds `processBulkUpload` from `firestoreService.ts`: build the broker's
in-memory map from one snapshot read, classify and stage every record, commit
the batches, and report the `BulkUploadResult` together with the post-commit
store. -/
def processBulkUpload (records : List ProcessedRecord) (brokerId : String)
    (store : Store) (now : Nat) : BulkUploadResult × Store :=
  let m := existingMapFor store brokerId
  let st := prepareBulk m brokerId now records
  ({ totalRecords := records.length
     added := st.added
     updated := st.updated
     errors := st.errors
     successRecords := st.successRecords
     errorRecords := st.errorRecords
     processingTime := 0 },
   commitBatches store (bulkBatches st))

/-! Concrete sample inputs used by witnesses and counterexamples. -/

/-- All-zero factors object. -/
def zeroFactors : TaxFactors :=
  ⟨0, 0, 0, 0, 0, 0, 0, 0, 0, 0, 0, 0⟩

/-- All-zero dynamic factors object. -/
def zeroDynFactors : DynFactors :=
  ⟨.num 0, .num 0, .num 0, .num 0, .num 0, .num 0,
   .num 0, .num 0, .num 0, .num 0, .num 0, .num 0⟩

/-- Sample record whose instrument contains a space. -/
def tqSpace : TaxQualification :=
  ⟨"", "b", "x y", "m", "p", "t", zeroFactors, 0, 0, 0, false⟩

/-- Sample record whose instrument contains a hyphen where `tqSpace` has a
space: distinct lookup key, identical derived document id. -/
def tqHyphen : TaxQualification :=
  { tqSpace with instrument := "x-y" }

/-- A processed row holding `tqSpace`. -/
def rowSpace : ProcessedRecord :=
  ⟨2, some tqSpace, .success, [], false, none⟩

/-- A processed row holding `tqHyphen`. -/
def rowHyphen : ProcessedRecord :=
  ⟨3, some tqHyphen, .success, [], false, none⟩

/-- Plain sample record. -/
def tqPlain : TaxQualification :=
  ⟨"", "b", "aapl", "nyse", "2024", "t", zeroFactors, 1, 0, 0, false⟩

/-- Intra-upload duplicate of `tqPlain` with a different amount. -/
def tqPlainDup : TaxQualification :=
  { tqPlain with amount := 5 }

/-- A processed row holding `tqPlain`. -/
def rowPlain : ProcessedRecord :=
  ⟨2, some tqPlain, .success, [], false, none⟩

/-- A processed row holding `tqPlainDup` (same lookup key as `rowPlain`). -/
def rowPlainDup : ProcessedRecord :=
  ⟨3, some tqPlainDup, .success, [], false, none⟩

/-- A fully valid sample upload row. -/
def goodRow : FileRow :=
  ⟨some "AAPL", some "NYSE", some "2024-Q1", some "Dividendos",
   .s "0,1", .s "0.1", .s "0", .s "0", .s "0", .s "0",
   .s "0", .s "0", .s "0", .s "0", .s "0", .s "0",
   .s "15000", .s "false"⟩

/-- The valid row with a non-numeric `f8` cell. -/
def rowAbcF8 : FileRow :=
  { goodRow with f8 := .s "abc" }

/-- The valid row with an out-of-range `f8` cell. -/
def rowBigF8 : FileRow :=
  { goodRow with f8 := .s "1.5" }

/-- The twelve factor cells of an upload row, in key order. -/
def rowFactorCells (row : FileRow) : List Cell :=
  [row.f8, row.f9, row.f10, row.f11, row.f12, row.f13,
   row.f14, row.f15, row.f16, row.f17, row.f18, row.f19]

/-- Truth of "this dynamic factor slot draws an error from the validator":
missing, non-numeric, or out of the range `[0,1]`. -/
def badFactor : JSNum → Prop
  | .num q => q < 0 ∨ 1 < q
  | _ => True

/-- Dynamic factors all equal to `1/10` (sum `12/10`, over the limit). -/
def overDynFactors : DynFactors :=
  ⟨.num (1/10), .num (1/10), .num (1/10), .num (1/10), .num (1/10), .num (1/10),
   .num (1/10), .num (1/10), .num (1/10), .num (1/10), .num (1/10), .num (1/10)⟩

/-- Zero factors with the `f8` slot absent. -/
def missingF8Dyn : DynFactors :=
  { zeroDynFactors with f8 := .missing }

/-- Sample partial record with the malformed period `2024-13` and every other
field valid. -/
def ptSample : PartialTax :=
  ⟨some "b", some "AAPL", some "NYSE", some "2024-13", some "Dividendos",
   some zeroDynFactors, .num 1, 0, 0, false⟩

/-- Sample partial record whose factors sum to `12/10`. -/
def ptOver : PartialTax :=
  { ptSample with period := some "2024", factors := some overDynFactors }

/-- Sample partial record with a missing `f8` factor. -/
def ptMissing : PartialTax :=
  { ptSample with factors := some missingF8Dyn }

/-- Pre-existing stored document matching `tqPlain`'s lookup key. -/
def existingDoc : TaxQualification :=
  { tqPlain with id := "doc1", createdAt := 7, amount := 42 }

/-- Singleton in-memory map holding `existingDoc` under `tqPlain`'s key. -/
def mapOne : KeyMap :=
  [(bulkKey tqPlain, existingDoc)]

/-- Batch-shape invariant maintained by the staging loop: the operation
counter mirrors the current batch, the current batch is always strictly below
the limit at iteration boundaries, and every closed batch is exactly full. -/
def BatchInv (st : BulkState) : Prop :=
  st.operationsInBatch = st.currentBatch.length ∧
  st.operationsInBatch < BATCH_SIZE ∧
  ∀ bch ∈ st.batches, bch.length = BATCH_SIZE

/-- Total number of operations staged so far. -/
def opsCount (st : BulkState) : Nat :=
  BATCH_SIZE * st.batches.length + st.operationsInBatch

/-! Helper lemmas. -/
theorem jsToLower_append (s t : String) :
    jsToLower (s ++ t) = jsToLower s ++ jsToLower t := by
  cases s with
  | mk l =>
    cases t with
    | mk l' =>
      show jsToLower ⟨l ++ l'⟩ = _
      simp [jsToLower, String.ext_iff]

theorem bulkKey_congr {d₁ d₂ : TaxQualification}
    (hi : jsToLower d₁.instrument = jsToLower d₂.instrument)
    (hm : jsToLower d₁.market = jsToLower d₂.market)
    (hp : jsToLower d₁.period = jsToLower d₂.period) :
    bulkKey d₁ = bulkKey d₂ := by
  simp only [bulkKey, keyBase, jsToLower_append, hi, hm, hp]

theorem generateQualificationId_congr {d₁ d₂ : TaxQualification}
    (hb : d₁.brokerId = d₂.brokerId) (hk : bulkKey d₁ = bulkKey d₂) :
    generateQualificationId d₁ = generateQualificationId d₂ := by
  have : jsToLower (d₁.brokerId ++ "-" ++ keyBase d₁.instrument d₁.market d₁.period)
      = jsToLower (d₂.brokerId ++ "-" ++ keyBase d₂.instrument d₂.market d₂.period) := by
    simp only [jsToLower_append, hb]
    simp only [bulkKey] at hk
    rw [hk]
  simp only [generateQualificationId, this]

/-- The lookup key reads only instrument, market, and period. -/
theorem bulkKey_qualificationType (d : TaxQualification) (t : String) :
    bulkKey { d with qualificationType := t } = bulkKey d := rfl


theorem pushOp_added (st : BulkState) (op : WriteOp) :
    (pushOp st op).added = st.added := by
  simp only [pushOp]
  split <;> rfl

theorem pushOp_updated (st : BulkState) (op : WriteOp) :
    (pushOp st op).updated = st.updated := by
  simp only [pushOp]
  split <;> rfl

theorem pushOp_errors (st : BulkState) (op : WriteOp) :
    (pushOp st op).errors = st.errors := by
  simp only [pushOp]
  split <;> rfl

theorem pushOp_successRecords (st : BulkState) (op : WriteOp) :
    (pushOp st op).successRecords = st.successRecords := by
  simp only [pushOp]
  split <;> rfl

theorem pushOp_errorRecords (st : BulkState) (op : WriteOp) :
    (pushOp st op).errorRecords = st.errorRecords := by
  simp only [pushOp]
  split <;> rfl

theorem pushOp_allWrites (st : BulkState) (op : WriteOp) :
    allWrites (pushOp st op) = allWrites st ++ [op] := by
  simp only [pushOp, allWrites]
  split
  · simp
  · simp

theorem bulkStep_counts (m : KeyMap) (b : String) (now : Nat) (st : BulkState)
    (r : ProcessedRecord) :
    (bulkStep m b now st r).added + (bulkStep m b now st r).updated
      + (bulkStep m b now st r).errors
      = st.added + st.updated + st.errors + 1 := by
  unfold bulkStep
  cases r.data with
  | none => simp; omega
  | some d =>
    by_cases hs : r.status = .error
    · simp [hs]; omega
    · simp only [hs, if_false]
      cases mapGet m (bulkKey d) with
      | some existing =>
        simp [pushOp_added, pushOp_updated, pushOp_errors]
        omega
      | none =>
        simp [pushOp_added, pushOp_updated, pushOp_errors]
        omega

theorem foldl_counts (m : KeyMap) (b : String) (now : Nat) :
    ∀ (records : List ProcessedRecord) (st : BulkState),
      (records.foldl (bulkStep m b now) st).added
        + (records.foldl (bulkStep m b now) st).updated
        + (records.foldl (bulkStep m b now) st).errors
        = st.added + st.updated + st.errors + records.length := by
  intro records
  induction records with
  | nil => intro st; simp
  | cons r rs ih =>
    intro st
    have h1 := bulkStep_counts m b now st r
    have h2 := ih (bulkStep m b now st r)
    simp only [List.foldl_cons, List.length_cons]
    omega

/-- C2: in every `BulkUploadResult` returned by `processBulkUpload`, the
counters satisfy `added + updated + errors = totalRecords`, and `totalRecords`
is the length of the input record list. -/
theorem row_count_conservation (records : List ProcessedRecord) (b : String)
    (store : Store) (now : Nat) :
    (processBulkUpload records b store now).1.added
      + (processBulkUpload records b store now).1.updated
      + (processBulkUpload records b store now).1.errors
      = (processBulkUpload records b store now).1.totalRecords
    ∧ (processBulkUpload records b store now).1.totalRecords = records.length := by
  have h := foldl_counts (existingMapFor store b) b now records initState
  simp only [initState] at h
  constructor
  · simpa [processBulkUpload, prepareBulk, initState] using h
  · rfl

/-- C3: the reconciliation lookup key is the lowercase of
`instrument-market-period`; it is insensitive to letter case in those three
fields and ignores `qualificationType`, so any two such rows resolve to the
same entry of the in-memory map. -/
theorem dedup_key_collision :
    (∀ d₁ d₂ : TaxQualification,
      jsToLower d₁.instrument = jsToLower d₂.instrument →
      jsToLower d₁.market = jsToLower d₂.market →
      jsToLower d₁.period = jsToLower d₂.period →
      bulkKey d₁ = bulkKey d₂ ∧ ∀ m : KeyMap, mapGet m (bulkKey d₁) = mapGet m (bulkKey d₂)) ∧
    (∀ (d : TaxQualification) (t : String),
      bulkKey { d with qualificationType := t } = bulkKey d ∧
      ∀ m : KeyMap, mapGet m (bulkKey { d with qualificationType := t }) = mapGet m (bulkKey d)) := by
  constructor
  · intro d₁ d₂ hi hm hp
    have hk := bulkKey_congr hi hm hp
    exact ⟨hk, fun m => by rw [hk]⟩
  · intro d t
    exact ⟨rfl, fun _ => rfl⟩

/-- Witness for C3 at concrete inputs. -/
theorem dedup_key_collision_witness :
    bulkKey { tqPlain with instrument := "AAPL" } = bulkKey tqPlain ∧
    bulkKey { tqPlain with qualificationType := "other" } = bulkKey tqPlain := by
  constructor
  · exact (dedup_key_collision.1 { tqPlain with instrument := "AAPL" } tqPlain
      (by decide) (by decide) (by decide)).1
  · exact (dedup_key_collision.2 tqPlain "other").1

theorem replaceFirstCommaL_of_not_mem : ∀ l : List Char, ',' ∉ l → replaceFirstCommaL l = l := by
  intro l hl
  induction l with
  | nil => rfl
  | cons c cs ih =>
    simp only [List.mem_cons, not_or] at hl
    simp only [replaceFirstCommaL, if_neg (Ne.symm hl.1)]
    rw [ih hl.2]

theorem replaceFirstCommaL_append (a b : List Char) (ha : ',' ∉ a) :
    replaceFirstCommaL (a ++ ',' :: b) = a ++ '.' :: b := by
  induction a with
  | nil => simp [replaceFirstCommaL]
  | cons c cs ih =>
    simp only [List.mem_cons, not_or] at ha
    simp only [List.cons_append, replaceFirstCommaL, if_neg (Ne.symm ha.1), List.append_eq]
    rw [ih ha.2]

/-- C8: `parseNumber` treats a comma like a dot (the first comma is replaced
before parsing), maps missing and non-string/non-number cells to `0`, and maps
any string without a parseable numeric prefix to `0`. -/
theorem parse_number_coercion :
    (∀ a b : String, ',' ∉ a.data → ',' ∉ b.data →
      parseNumber (.s (a ++ "," ++ b)) = parseNumber (.s (a ++ "." ++ b))) ∧
    parseNumber .missing = 0 ∧
    parseNumber (.b true) = 0 ∧
    (∀ v : String, parseFloatQ ⟨replaceFirstCommaL v.data⟩ = none → parseNumber (.s v) = 0) ∧
    parseNumber (.s "1,5") = 3 / 2 ∧
    parseNumber (.s "abc") = 0 := by
  refine ⟨?_, rfl, rfl, ?_,
    by simp [parseNumber, parseFloatQ, replaceFirstCommaL, natOfDigits]; norm_num,
    by simp [parseNumber, parseFloatQ, replaceFirstCommaL, natOfDigits]⟩
  · intro a b ha hb
    have h1 : (a ++ "," ++ b).data = a.data ++ ',' :: b.data := by
      simp [String.data_append]
    have h2 : (a ++ "." ++ b).data = a.data ++ '.' :: b.data := by
      simp [String.data_append]
    have hnm : ',' ∉ a.data ++ '.' :: b.data := by
      simp only [List.mem_append, List.mem_cons, not_or]
      exact ⟨ha, by decide, hb⟩
    simp only [parseNumber, h1, h2, replaceFirstCommaL_append a.data b.data ha,
      replaceFirstCommaL_of_not_mem _ hnm]
  · intro v h
    simp [parseNumber, h]

/-- Witness for C8 at concrete inputs. -/
theorem parse_number_coercion_witness :
    parseNumber (.s ("1" ++ "," ++ "25")) = parseNumber (.s ("1" ++ "." ++ "25")) ∧
    parseNumber (.s "xyz") = 0 := by
  constructor
  · exact parse_number_coercion.1 "1" "25" (by decide) (by decide)
  · exact parse_number_coercion.2.2.2.1 "xyz" (by decide)

theorem checkFactor_nil (n : Nat) (f : DynFactors) (k : String)
    (h : ∃ q, factorGet f k = .num q ∧ 0 ≤ q ∧ q ≤ 1) :
    checkFactor n f k = [] := by
  obtain ⟨q, hq, h0, h1⟩ := h
  simp only [checkFactor, hq]
  rw [if_neg]
  rw [not_or]
  exact ⟨not_lt.mpr h0, not_lt.mpr h1⟩

theorem factorErrors_nil (n : Nat) (f : DynFactors)
    (h : ∀ k ∈ factorKeys, ∃ q, factorGet f k = .num q ∧ 0 ≤ q ∧ q ≤ 1) :
    factorErrors n f = [] := by
  have h8 := checkFactor_nil n f "f8" (h "f8" (by simp [factorKeys]))
  have h9 := checkFactor_nil n f "f9" (h "f9" (by simp [factorKeys]))
  have h10 := checkFactor_nil n f "f10" (h "f10" (by simp [factorKeys]))
  have h11 := checkFactor_nil n f "f11" (h "f11" (by simp [factorKeys]))
  have h12 := checkFactor_nil n f "f12" (h "f12" (by simp [factorKeys]))
  have h13 := checkFactor_nil n f "f13" (h "f13" (by simp [factorKeys]))
  have h14 := checkFactor_nil n f "f14" (h "f14" (by simp [factorKeys]))
  have h15 := checkFactor_nil n f "f15" (h "f15" (by simp [factorKeys]))
  have h16 := checkFactor_nil n f "f16" (h "f16" (by simp [factorKeys]))
  have h17 := checkFactor_nil n f "f17" (h "f17" (by simp [factorKeys]))
  have h18 := checkFactor_nil n f "f18" (h "f18" (by simp [factorKeys]))
  have h19 := checkFactor_nil n f "f19" (h "f19" (by simp [factorKeys]))
  simp [factorErrors, factorKeys, h8, h9, h10, h11, h12, h13, h14, h15, h16, h17, h18, h19]

theorem requiredErrors_nil (d : PartialTax) (n : Nat)
    (hi : blankStr d.instrument = false) (hm : blankStr d.market = false)
    (hp : blankStr d.period = false) (hq : blankStr d.qualificationType = false)
    (ha : ∃ q, d.amount = .num q ∧ 0 ≤ q) :
    requiredErrors d n = [] := by
  obtain ⟨q, hq', h0⟩ := ha
  simp [requiredErrors, amountErrors, hi, hm, hp, hq, hq', not_lt.mpr h0]

theorem validateTaxQualification_nil (d : PartialTax) (n : Nat) (f : DynFactors)
    (hf : d.factors = some f)
    (hreq : requiredErrors d n = [])
    (hfac : factorErrors n f = [])
    (hsum : (validateFactorsSum (dynToFactors f)).sum ≤ 1) :
    validateTaxQualification d n = [] := by
  have hvalid : (validateFactorsSum (dynToFactors f)).isValid = true := by
    simp only [validateFactorsSum] at hsum ⊢
    exact decide_eq_true hsum
  simp [validateTaxQualification, hf, hreq, hfac, hvalid]

theorem zeroDynFactors_good :
    ∀ k ∈ factorKeys, ∃ q, factorGet zeroDynFactors k = .num q ∧ 0 ≤ q ∧ q ≤ 1 := by
  intro k hk
  simp only [factorKeys, List.mem_cons, List.not_mem_nil, or_false] at hk
  rcases hk with rfl | rfl | rfl | rfl | rfl | rfl | rfl | rfl | rfl | rfl | rfl | rfl <;>
    exact ⟨0, rfl, le_refl 0, by norm_num⟩

/-- C9: `validatePeriodFormat` accepts exactly the `YYYY`, `YYYY-MM` (month
`01`–`12`) and `YYYY-Qn` (`n` in `1`–`4`) shapes — in particular it rejects
`2024-13` — yet `validateTaxQualification` never invokes it, so a row that is
valid in every other respect and carries the non-empty period `2024-13`
produces an empty validation-error list. -/
theorem period_format_not_wired :
    validatePeriodFormat "2024-13" = false ∧
    validatePeriodFormat "2024" = true ∧
    validatePeriodFormat "2024-01" = true ∧
    validatePeriodFormat "2024-12" = true ∧
    validatePeriodFormat "2024-Q1" = true ∧
    validatePeriodFormat "2024-Q4" = true ∧
    validatePeriodFormat "2024-Q5" = false ∧
    validatePeriodFormat "2024-00" = false ∧
    validatePeriodFormat "202" = false ∧
    (∀ (d : PartialTax) (n : Nat) (f : DynFactors),
      d.factors = some f →
      d.period = some "2024-13" →
      blankStr d.instrument = false →
      blankStr d.market = false →
      blankStr d.qualificationType = false →
      (∃ q, d.amount = .num q ∧ 0 ≤ q) →
      (∀ k ∈ factorKeys, ∃ q, factorGet f k = .num q ∧ 0 ≤ q ∧ q ≤ 1) →
      (validateFactorsSum (dynToFactors f)).sum ≤ 1 →
      validateTaxQualification d n = []) := by
  refine ⟨by decide, by decide, by decide, by decide, by decide, by decide, by decide,
    by decide, by decide, ?_⟩
  intro d n f hf hper hi hm hq ha hfac hsum
  have hp : blankStr d.period = false := by
    rw [hper]; decide
  exact validateTaxQualification_nil d n f hf
    (requiredErrors_nil d n hi hm hp hq ha) (factorErrors_nil n f hfac) hsum

/-- Witness for C9: the concrete sample row with period `2024-13` validates
with zero errors. -/
theorem period_format_not_wired_witness :
    validateTaxQualification ptSample 2 = [] ∧ validatePeriodFormat "2024-13" = false := by
  constructor
  · exact period_format_not_wired.2.2.2.2.2.2.2.2.2 ptSample 2 zeroDynFactors rfl rfl
      (by decide) (by decide) (by decide) ⟨1, rfl, by norm_num⟩ zeroDynFactors_good
      (by simp [validateFactorsSum, dynToFactors, zeroDynFactors, jsNumVal])
  · exact period_format_not_wired.1

theorem requiredErrors_mem (d : PartialTax) (n : Nat) (e : ValidationError)
    (he : e ∈ requiredErrors d n) :
    factorKeys.contains e.field = false ∧ e.errorType = .validation := by
  simp only [requiredErrors, List.mem_append] at he
  rcases he with (((h | h) | h) | h) | h
  · split at h
    · simp only [List.mem_singleton] at h
      subst h
      exact ⟨(by decide : factorKeys.contains "instrument" = false), rfl⟩
    · simp at h
  · split at h
    · simp only [List.mem_singleton] at h
      subst h
      exact ⟨(by decide : factorKeys.contains "market" = false), rfl⟩
    · simp at h
  · split at h
    · simp only [List.mem_singleton] at h
      subst h
      exact ⟨(by decide : factorKeys.contains "period" = false), rfl⟩
    · simp at h
  · split at h
    · simp only [List.mem_singleton] at h
      subst h
      exact ⟨(by decide : factorKeys.contains "qualificationType" = false), rfl⟩
    · simp at h
  · rcases hA : d.amount with q | _ | _ | _ <;> simp only [amountErrors, hA] at h
    · split at h
      · simp only [List.mem_singleton] at h
        subst h
        exact ⟨(by decide : factorKeys.contains "amount" = false), rfl⟩
      · simp at h
    · simp at h
    · simp only [List.mem_singleton] at h
      subst h
      exact ⟨(by decide : factorKeys.contains "amount" = false), rfl⟩
    · simp at h

theorem checkFactor_mem (n : Nat) (f : DynFactors) (k : String) (e : ValidationError)
    (he : e ∈ checkFactor n f k) :
    e.field = k ∧ e.errorType ≠ .factorSum := by
  simp only [checkFactor] at he
  split at he
  · simp only [List.mem_singleton] at he
    subst he
    exact ⟨rfl, by simp⟩
  · simp only [List.mem_singleton] at he
    subst he
    exact ⟨rfl, by simp⟩
  · simp only [List.mem_singleton] at he
    subst he
    exact ⟨rfl, by simp⟩
  · split at he
    · simp only [List.mem_singleton] at he
      subst he
      exact ⟨rfl, by simp⟩
    · simp at he

theorem factorErrors_mem (n : Nat) (f : DynFactors) (e : ValidationError)
    (he : e ∈ factorErrors n f) :
    factorKeys.contains e.field = true ∧ e.errorType ≠ .factorSum := by
  simp only [factorErrors, List.mem_flatten] at he
  obtain ⟨l, hl, hel⟩ := he
  simp only [List.mem_map] at hl
  obtain ⟨k, hk, rfl⟩ := hl
  obtain ⟨hf, ht⟩ := checkFactor_mem n f k e hel
  rw [hf]
  exact ⟨List.elem_eq_true_of_mem hk, ht⟩

/-- C6: when every individual factor is present, numeric, and inside `[0,1]`
but the twelve factors sum to more than 1, the validator emits exactly one
error of category `factorSum`, and its `value` is the computed sum; the sum
check is skipped (no `factorSum` error at all) whenever any individual factor
error was recorded. -/
theorem factor_sum_single_error :
    (∀ (d : PartialTax) (n : Nat) (f : DynFactors),
      d.factors = some f →
      (∀ k ∈ factorKeys, ∃ q, factorGet f k = .num q ∧ 0 ≤ q ∧ q ≤ 1) →
      1 < (validateFactorsSum (dynToFactors f)).sum →
      ((validateTaxQualification d n).countP (fun e => e.errorType == .factorSum) = 1 ∧
       ∃ e ∈ validateTaxQualification d n, e.errorType = .factorSum ∧
         e.value = .q (validateFactorsSum (dynToFactors f)).sum)) ∧
    (∀ (d : PartialTax) (n : Nat) (f : DynFactors),
      d.factors = some f →
      factorErrors n f ≠ [] →
      (validateTaxQualification d n).countP (fun e => e.errorType == .factorSum) = 0) := by
  constructor
  · intro d n f hf hgood hsum
    have hfac : factorErrors n f = [] := factorErrors_nil n f hgood
    have hinvalid : (validateFactorsSum (dynToFactors f)).isValid = false := by
      simp only [validateFactorsSum]
      exact decide_eq_false (not_le.mpr hsum)
    have hany : ((requiredErrors d n).any fun e => factorKeys.contains e.field) = false := by
      rw [List.any_eq_false]
      intro e he
      simpa using (requiredErrors_mem d n e he).1
    have hcount0 : (requiredErrors d n).countP (fun e => e.errorType == .factorSum) = 0 := by
      rw [List.countP_eq_zero]
      intro e he
      simp [(requiredErrors_mem d n e he).2]
    have hval : validateTaxQualification d n
        = requiredErrors d n ++ [⟨n, "factors", .q (validateFactorsSum (dynToFactors f)).sum,
            (validateFactorsSum (dynToFactors f)).error.getD "La suma de factores supera el 100%",
            .factorSum⟩] := by
      simp only [validateTaxQualification, hf, hfac, List.append_nil, hany, Bool.not_false,
        Bool.or_true, if_true, hinvalid, Bool.false_eq_true, if_false]
    rw [hval]
    constructor
    · rw [List.countP_append, hcount0]
      simp
    · exact ⟨_, List.mem_append_right _ (List.mem_singleton.mpr rfl), rfl, rfl⟩
  · intro d n f hf hne
    obtain ⟨e₀, he₀⟩ := List.exists_mem_of_ne_nil _ hne
    have hne2 : requiredErrors d n ++ factorErrors n f ≠ [] := by
      intro hcontra
      rcases List.append_eq_nil.mp hcontra with ⟨_, h2⟩
      exact hne h2
    have hany : ((requiredErrors d n ++ factorErrors n f).any
        fun e => factorKeys.contains e.field) = true := by
      rw [List.any_eq_true]
      exact ⟨e₀, List.mem_append_right _ he₀, (factorErrors_mem n f e₀ he₀).1⟩
    have hem : (requiredErrors d n ++ factorErrors n f).isEmpty = false := by
      cases hE : (requiredErrors d n ++ factorErrors n f).isEmpty with
      | false => rfl
      | true => exact absurd (List.isEmpty_iff.mp hE) hne2
    have hval : validateTaxQualification d n = requiredErrors d n ++ factorErrors n f := by
      simp only [validateTaxQualification, hf, hany, Bool.not_true, Bool.or_false, hem,
        Bool.false_eq_true, if_false]
    rw [hval, List.countP_append]
    have h1 : (requiredErrors d n).countP (fun e => e.errorType == .factorSum) = 0 := by
      rw [List.countP_eq_zero]
      intro e he
      simp [(requiredErrors_mem d n e he).2]
    have h2 : (factorErrors n f).countP (fun e => e.errorType == .factorSum) = 0 := by
      rw [List.countP_eq_zero]
      intro e he
      have := (factorErrors_mem n f e he).2
      simp only [beq_iff_eq]
      exact fun hcontra => this hcontra
    rw [h1, h2]

/-- Witness for C6: factors of `1/10` each (sum `12/10`) draw exactly one
`factorSum` error; a missing `f8` suppresses the sum check. -/
theorem factor_sum_single_error_witness :
    (validateTaxQualification ptOver 3).countP (fun e => e.errorType == .factorSum) = 1 ∧
    (validateTaxQualification ptMissing 3).countP (fun e => e.errorType == .factorSum) = 0 := by
  constructor
  · exact (factor_sum_single_error.1 ptOver 3 overDynFactors rfl
      (by intro k hk
          simp only [factorKeys, List.mem_cons, List.not_mem_nil, or_false] at hk
          rcases hk with rfl|rfl|rfl|rfl|rfl|rfl|rfl|rfl|rfl|rfl|rfl|rfl <;>
            exact ⟨1/10, rfl, by norm_num, by norm_num⟩)
      (by simp [validateFactorsSum, dynToFactors, overDynFactors, jsNumVal]; norm_num)).1
  · exact factor_sum_single_error.2 ptMissing 3 missingF8Dyn rfl
      (by simp [factorErrors, factorKeys, checkFactor, missingF8Dyn, zeroDynFactors, factorGet])

theorem bulkStep_allWrites (m : KeyMap) (b : String) (now : Nat) (st : BulkState)
    (r : ProcessedRecord) :
    allWrites (bulkStep m b now st r) = allWrites st ++ (stagedOp m b now r).toList := by
  unfold bulkStep stagedOp
  cases r.data with
  | none => simp [allWrites]
  | some d =>
    by_cases hs : r.status = .error
    · simp [hs, allWrites]
    · simp only [hs, if_false]
      cases mapGet m (bulkKey d) with
      | some existing =>
        rw [pushOp_allWrites]
        simp [allWrites]
      | none =>
        rw [pushOp_allWrites]
        simp [allWrites]

theorem foldl_allWrites (m : KeyMap) (b : String) (now : Nat) :
    ∀ (records : List ProcessedRecord) (st : BulkState),
      allWrites (records.foldl (bulkStep m b now) st)
        = allWrites st ++ (records.map fun r => (stagedOp m b now r).toList).flatten := by
  intro records
  induction records with
  | nil => intro st; simp
  | cons r rs ih =>
    intro st
    simp only [List.foldl_cons, List.map_cons, List.flatten_cons]
    rw [ih, bulkStep_allWrites, List.append_assoc]

theorem stagedOp_isSome (m : KeyMap) (b : String) (now : Nat) (r : ProcessedRecord) :
    (stagedOp m b now r).isSome = eligible r := by
  unfold stagedOp eligible
  cases r.data with
  | none => simp
  | some d =>
    by_cases hs : r.status = .error
    · simp [hs]
    · simp only [hs, if_false]
      cases mapGet m (bulkKey d) <;> simp [hs]

theorem allWrites_length (m : KeyMap) (b : String) (now : Nat) :
    ∀ (records : List ProcessedRecord) (st : BulkState),
      (allWrites (records.foldl (bulkStep m b now) st)).length
        = (allWrites st).length + (records.filter eligible).length := by
  intro records
  induction records with
  | nil => intro st; simp
  | cons r rs ih =>
    intro st
    simp only [List.foldl_cons]
    rw [ih, bulkStep_allWrites, List.length_append]
    rcases hso : stagedOp m b now r with _ | w
    · have he : eligible r = false := by rw [← stagedOp_isSome, hso]; rfl
      simp [List.filter_cons, he]
    · have he : eligible r = true := by rw [← stagedOp_isSome, hso]; rfl
      simp only [Option.toList_some, List.length_append, List.length_cons, List.length_nil,
        List.filter_cons, he, if_true]
      simp
      omega

theorem checkFactor_bad (n : Nat) (f : DynFactors) (k : String)
    (hb : badFactor (factorGet f k)) :
    ∃ e ∈ checkFactor n f k, e.field = k := by
  rcases hg : factorGet f k with q | _ | _ | _ <;> simp only [checkFactor, hg]
  · rw [hg] at hb
    have hb' : q < 0 ∨ 1 < q := hb
    rw [if_pos hb']
    exact ⟨_, List.mem_singleton.mpr rfl, rfl⟩
  · exact ⟨_, List.mem_singleton.mpr rfl, rfl⟩
  · exact ⟨_, List.mem_singleton.mpr rfl, rfl⟩
  · exact ⟨_, List.mem_singleton.mpr rfl, rfl⟩

theorem validate_has_factor_error (d : PartialTax) (n : Nat) (f : DynFactors) (k : String)
    (hf : d.factors = some f) (hk : k ∈ factorKeys) (hb : badFactor (factorGet f k)) :
    ∃ e ∈ validateTaxQualification d n, e.field = k := by
  obtain ⟨e, he, hef⟩ := checkFactor_bad n f k hb
  have hmem : e ∈ factorErrors n f := by
    simp only [factorErrors, List.mem_flatten]
    exact ⟨checkFactor n f k, List.mem_map.mpr ⟨k, hk, rfl⟩, he⟩
  have hmem2 : e ∈ requiredErrors d n ++ factorErrors n f := List.mem_append_right _ hmem
  refine ⟨e, ?_, hef⟩
  simp only [validateTaxQualification, hf]
  split
  · split
    · exact hmem2
    · exact List.mem_append_left _ hmem2
  · exact hmem2

theorem processRow_error (row : FileRow) (b : String) (n now : Nat)
    (h : validateTaxQualification (sanitizeData (rowToTaxQualification row b now)) n ≠ []) :
    (processRow row b n now).status = .error ∧ (processRow row b n now).data = none := by
  have hlen : 0 < (validateTaxQualification (sanitizeData (rowToTaxQualification row b now)) n).length :=
    List.length_pos.mpr h
  simp only [processRow]
  rw [if_pos hlen]
  exact ⟨rfl, rfl⟩

theorem row_bad_factor (row : FileRow)
    (hc : ∃ c ∈ rowFactorCells row, parseNumber c < 0 ∨ 1 < parseNumber c) :
    ∃ k ∈ factorKeys, badFactor (factorGet (rowDynFactors row) k) := by
  obtain ⟨c, hcm, hrange⟩ := hc
  simp only [rowFactorCells, List.mem_cons, List.not_mem_nil, or_false] at hcm
  rcases hcm with rfl | rfl | rfl | rfl | rfl | rfl | rfl | rfl | rfl | rfl | rfl | rfl
  · exact ⟨"f8", by simp [factorKeys], hrange⟩
  · exact ⟨"f9", by simp [factorKeys], hrange⟩
  · exact ⟨"f10", by simp [factorKeys], hrange⟩
  · exact ⟨"f11", by simp [factorKeys], hrange⟩
  · exact ⟨"f12", by simp [factorKeys], hrange⟩
  · exact ⟨"f13", by simp [factorKeys], hrange⟩
  · exact ⟨"f14", by simp [factorKeys], hrange⟩
  · exact ⟨"f15", by simp [factorKeys], hrange⟩
  · exact ⟨"f16", by simp [factorKeys], hrange⟩
  · exact ⟨"f17", by simp [factorKeys], hrange⟩
  · exact ⟨"f18", by simp [factorKeys], hrange⟩
  · exact ⟨"f19", by simp [factorKeys], hrange⟩

theorem parseNumber_z : parseNumber (.s "0") = 0 := by
  simp [parseNumber, parseFloatQ, replaceFirstCommaL, natOfDigits]

theorem parseNumber_zc : parseNumber (.s "0,1") = 1 / 10 := by
  simp [parseNumber, parseFloatQ, replaceFirstCommaL, natOfDigits]

theorem parseNumber_zd : parseNumber (.s "0.1") = 1 / 10 := by
  simp [parseNumber, parseFloatQ, replaceFirstCommaL, natOfDigits]

theorem parseNumber_monto : parseNumber (.s "15000") = 15000 := by
  simp [parseNumber, parseFloatQ, replaceFirstCommaL, natOfDigits]

theorem parseNumber_abc : parseNumber (.s "abc") = 0 := by
  simp [parseNumber, parseFloatQ, replaceFirstCommaL, natOfDigits]

theorem parseNumber_big : parseNumber (.s "1.5") = 3 / 2 := by
  simp [parseNumber, parseFloatQ, replaceFirstCommaL, natOfDigits]
  norm_num

theorem rowAbcF8_validates :
    validateTaxQualification (sanitizeData (rowToTaxQualification rowAbcF8 "b" 0)) 2 = [] := by
  have h8 : parseNumber rowAbcF8.f8 = 0 := parseNumber_abc
  have h9 : parseNumber rowAbcF8.f9 = 1 / 10 := parseNumber_zd
  have hz : parseNumber (Cell.s "0") = 0 := parseNumber_z
  apply validateTaxQualification_nil _ _ (rowDynFactors rowAbcF8) rfl
  · apply requiredErrors_nil
    · decide
    · decide
    · decide
    · decide
    · exact ⟨parseNumber rowAbcF8.monto, rfl, by
        rw [show parseNumber rowAbcF8.monto = 15000 from parseNumber_monto]
        norm_num⟩
  · apply factorErrors_nil
    intro k hk
    simp only [factorKeys, List.mem_cons, List.not_mem_nil, or_false] at hk
    rcases hk with rfl | rfl | rfl | rfl | rfl | rfl | rfl | rfl | rfl | rfl | rfl | rfl
    · exact ⟨_, rfl, by rw [h8], by rw [h8]; norm_num⟩
    · exact ⟨_, rfl, by rw [h9]; norm_num, by rw [h9]; norm_num⟩
    · exact ⟨_, rfl, by rw [show parseNumber rowAbcF8.f10 = 0 from hz],
        by rw [show parseNumber rowAbcF8.f10 = 0 from hz]; norm_num⟩
    · exact ⟨_, rfl, by rw [show parseNumber rowAbcF8.f11 = 0 from hz],
        by rw [show parseNumber rowAbcF8.f11 = 0 from hz]; norm_num⟩
    · exact ⟨_, rfl, by rw [show parseNumber rowAbcF8.f12 = 0 from hz],
        by rw [show parseNumber rowAbcF8.f12 = 0 from hz]; norm_num⟩
    · exact ⟨_, rfl, by rw [show parseNumber rowAbcF8.f13 = 0 from hz],
        by rw [show parseNumber rowAbcF8.f13 = 0 from hz]; norm_num⟩
    · exact ⟨_, rfl, by rw [show parseNumber rowAbcF8.f14 = 0 from hz],
        by rw [show parseNumber rowAbcF8.f14 = 0 from hz]; norm_num⟩
    · exact ⟨_, rfl, by rw [show parseNumber rowAbcF8.f15 = 0 from hz],
        by rw [show parseNumber rowAbcF8.f15 = 0 from hz]; norm_num⟩
    · exact ⟨_, rfl, by rw [show parseNumber rowAbcF8.f16 = 0 from hz],
        by rw [show parseNumber rowAbcF8.f16 = 0 from hz]; norm_num⟩
    · exact ⟨_, rfl, by rw [show parseNumber rowAbcF8.f17 = 0 from hz],
        by rw [show parseNumber rowAbcF8.f17 = 0 from hz]; norm_num⟩
    · exact ⟨_, rfl, by rw [show parseNumber rowAbcF8.f18 = 0 from hz],
        by rw [show parseNumber rowAbcF8.f18 = 0 from hz]; norm_num⟩
    · exact ⟨_, rfl, by rw [show parseNumber rowAbcF8.f19 = 0 from hz],
        by rw [show parseNumber rowAbcF8.f19 = 0 from hz]; norm_num⟩
  · simp only [validateFactorsSum, dynToFactors, rowDynFactors, jsNumVal, rowAbcF8, goodRow,
      parseNumber_z, parseNumber_zd, parseNumber_abc]
    norm_num

/-- C5 (amended): a row whose normalized factors include a value outside
`[0,1]` is marked `error` with `data = null`; at the validator level any
factor slot that is missing, non-numeric, or out of range draws an error; and
the staged writes of `processBulkUpload` are exactly the eligible records
(rows with `status = error` or `data = null` stage nothing). Raw non-numeric
factor cells, however, are coerced to `0` by the Normalizer, so they validate
(see the counterexample). -/
theorem factor_range_excludes_row :
    (∀ (row : FileRow) (b : String) (n now : Nat),
      (∃ c ∈ rowFactorCells row, parseNumber c < 0 ∨ 1 < parseNumber c) →
      (processRow row b n now).status = .error ∧ (processRow row b n now).data = none) ∧
    (∀ (d : PartialTax) (n : Nat) (f : DynFactors) (k : String),
      d.factors = some f → k ∈ factorKeys → badFactor (factorGet f k) →
      validateTaxQualification d n ≠ []) ∧
    (∀ (m : KeyMap) (b : String) (now : Nat) (records : List ProcessedRecord),
      (allWrites (prepareBulk m b now records)).length = (records.filter eligible).length) := by
  refine ⟨?_, ?_, ?_⟩
  · intro row b n now hc
    obtain ⟨k, hk, hb⟩ := row_bad_factor row hc
    obtain ⟨e, he, _⟩ := validate_has_factor_error
      (sanitizeData (rowToTaxQualification row b now)) n (rowDynFactors row) k rfl hk hb
    exact processRow_error row b n now (List.ne_nil_of_mem he)
  · intro d n f k hf hk hb
    obtain ⟨e, he, _⟩ := validate_has_factor_error d n f k hf hk hb
    exact List.ne_nil_of_mem he
  · intro m b now records
    have h := allWrites_length m b now records initState
    simpa [prepareBulk, initState, allWrites] using h

/-- Witness for C5 (amended): the row with `f8 = "1.5"` is rejected. -/
theorem factor_range_excludes_row_witness :
    (processRow rowBigF8 "b" 2 0).status = .error ∧ (processRow rowBigF8 "b" 2 0).data = none :=
  factor_range_excludes_row.1 rowBigF8 "b" 2 0
    ⟨rowBigF8.f8, by decide,
      Or.inr (by rw [show parseNumber rowBigF8.f8 = 3 / 2 from parseNumber_big]; norm_num)⟩

/-- C5 counterexample: the row whose `f8` cell is the non-numeric string
`abc` is NOT excluded — the Normalizer coerces the cell to `0`, the validator
finds nothing wrong, and the record comes out `success` with data attached. -/
theorem factor_nonnumeric_not_excluded :
    (processRow rowAbcF8 "b" 2 0).status = .success ∧
    (processRow rowAbcF8 "b" 2 0).data.isSome = true ∧
    parseNumber (.s "abc") = 0 := by
  have hval := rowAbcF8_validates
  exact ⟨by simp [processRow, hval], by simp [processRow, hval], parseNumber_abc⟩

theorem initState_inv : BatchInv initState ∧ opsCount initState = 0 := by
  refine ⟨⟨rfl, by decide, ?_⟩, rfl⟩
  intro bch hbch
  simp [initState] at hbch

theorem batchInv_eq (st st' : BulkState) (hB : st'.batches = st.batches)
    (hc : st'.currentBatch = st.currentBatch)
    (ho : st'.operationsInBatch = st.operationsInBatch) :
    (BatchInv st' ↔ BatchInv st) ∧ opsCount st' = opsCount st := by
  constructor
  · simp [BatchInv, hB, hc, ho]
  · simp [opsCount, hB, ho]

theorem pushOp_inv (st : BulkState) (op : WriteOp) (h : BatchInv st) :
    BatchInv (pushOp st op) ∧ opsCount (pushOp st op) = opsCount st + 1 := by
  obtain ⟨h1, h2, h3⟩ := h
  by_cases hc : st.operationsInBatch + 1 ≥ BATCH_SIZE
  · have hpush : pushOp st op
        = { st with batches := st.batches ++ [st.currentBatch ++ [op]], currentBatch := [], operationsInBatch := 0 } := by
      simp only [pushOp]
      rw [if_pos hc]
    rw [hpush]
    refine ⟨⟨rfl, ?_, ?_⟩, ?_⟩
    · show (0 : Nat) < BATCH_SIZE
      decide
    · intro bch hbch
      rcases List.mem_append.mp hbch with hb | hb
      · exact h3 bch hb
      · rw [List.mem_singleton.mp hb]
        simp only [List.length_append, List.length_singleton]
        omega
    · show BATCH_SIZE * (st.batches ++ [st.currentBatch ++ [op]]).length + 0
        = BATCH_SIZE * st.batches.length + st.operationsInBatch + 1
      simp only [List.length_append, List.length_singleton, BATCH_SIZE] at hc h2 ⊢
      omega
  · have hpush : pushOp st op
        = { st with currentBatch := st.currentBatch ++ [op], operationsInBatch := st.operationsInBatch + 1 } := by
      simp only [pushOp]
      rw [if_neg hc]
    rw [hpush]
    refine ⟨⟨?_, ?_, h3⟩, ?_⟩
    · show st.operationsInBatch + 1 = (st.currentBatch ++ [op]).length
      simp [h1]
    · show st.operationsInBatch + 1 < BATCH_SIZE
      omega
    · show BATCH_SIZE * st.batches.length + (st.operationsInBatch + 1)
        = BATCH_SIZE * st.batches.length + st.operationsInBatch + 1
      omega

theorem bulkStep_batchFields (m : KeyMap) (b : String) (now : Nat) (st : BulkState)
    (r : ProcessedRecord) :
    ((bulkStep m b now st r).batches = st.batches ∧
     (bulkStep m b now st r).currentBatch = st.currentBatch ∧
     (bulkStep m b now st r).operationsInBatch = st.operationsInBatch ∧ eligible r = false) ∨
    (∃ op st', st'.batches = st.batches ∧ st'.currentBatch = st.currentBatch ∧
      st'.operationsInBatch = st.operationsInBatch ∧
      bulkStep m b now st r = pushOp st' op ∧ eligible r = true) := by
  cases hd : r.data with
  | none =>
    left
    refine ⟨?_, ?_, ?_, by simp [eligible, hd]⟩ <;> simp [bulkStep, hd]
  | some d =>
    by_cases hs : r.status = .error
    · left
      refine ⟨?_, ?_, ?_, by simp [eligible, hs]⟩ <;> simp [bulkStep, hd, hs]
    · right
      rcases hm : mapGet m (bulkKey d) with _ | existing
      · refine ⟨(generateQualificationId d, { d with id := generateQualificationId d, brokerId := b, createdAt := now, updatedAt := now }),
          { st with added := st.added + 1, successRecords := st.successRecords ++ [r] },
          rfl, rfl, rfl, ?_, by simp [eligible, hs, hd]⟩
        simp [bulkStep, hd, hs, hm]
      · refine ⟨(existing.id, { d with id := existing.id, createdAt := existing.createdAt, updatedAt := now }),
          { st with updated := st.updated + 1, successRecords := st.successRecords ++ [{ r with isDuplicate := true, existingId := some (existing.id), status := .updated }] },
          rfl, rfl, rfl, ?_, by simp [eligible, hs, hd]⟩
        simp [bulkStep, hd, hs, hm]

theorem bulkStep_inv (m : KeyMap) (b : String) (now : Nat) (st : BulkState)
    (r : ProcessedRecord) (h : BatchInv st) :
    BatchInv (bulkStep m b now st r) ∧
    opsCount (bulkStep m b now st r) = opsCount st + (if eligible r = true then 1 else 0) := by
  rcases bulkStep_batchFields m b now st r with ⟨hB, hc, ho, he⟩ | ⟨op, st', hB, hc, ho, heq, he⟩
  · have hco := batchInv_eq st (bulkStep m b now st r) hB hc ho
    exact ⟨hco.1.mpr h, by rw [hco.2, he]; simp⟩
  · have hco := batchInv_eq st st' hB hc ho
    have hp := pushOp_inv st' op (hco.1.mpr h)
    rw [heq, he]
    exact ⟨hp.1, by rw [hp.2, hco.2]; simp⟩

theorem foldl_inv (m : KeyMap) (b : String) (now : Nat) :
    ∀ (records : List ProcessedRecord) (st : BulkState), BatchInv st →
      BatchInv (records.foldl (bulkStep m b now) st) ∧
      opsCount (records.foldl (bulkStep m b now) st)
        = opsCount st + (records.filter eligible).length := by
  intro records
  induction records with
  | nil => intro st h; exact ⟨h, by simp⟩
  | cons r rs ih =>
    intro st h
    have h1 := bulkStep_inv m b now st r h
    have h2 := ih (bulkStep m b now st r) h1.1
    refine ⟨h2.1, ?_⟩
    rw [List.foldl_cons, h2.2, h1.2, List.filter_cons]
    by_cases he : eligible r = true
    · simp only [he, if_true, List.length_cons]
      omega
    · have he' : eligible r = false := by
        cases hE : eligible r
        · rfl
        · exact absurd hE he
      simp only [he', Bool.false_eq_true, if_false]
      omega

/-- C7: the number of commit batches is exactly the ceiling of the eligible
write count divided by the 500-operation batch limit, and no batch exceeds
500 operations. -/
theorem batch_sizing (records : List ProcessedRecord) (b : String) (store : Store) (now : Nat) :
    (bulkBatches (prepareBulk (existingMapFor store b) b now records)).length
      = ((records.filter eligible).length + BATCH_SIZE - 1) / BATCH_SIZE ∧
    (bulkBatches (prepareBulk (existingMapFor store b) b now records)).all
      (fun bch => decide (bch.length ≤ BATCH_SIZE)) = true := by
  have h := foldl_inv (existingMapFor store b) b now records initState initState_inv.1
  rw [show opsCount initState = 0 from rfl, Nat.zero_add] at h
  rw [show List.foldl (bulkStep (existingMapFor store b) b now) initState records
    = prepareBulk (existingMapFor store b) b now records from rfl] at h
  obtain ⟨⟨hops, hlt, hbatches⟩, hcount⟩ := h
  constructor
  · simp only [bulkBatches]
    simp only [opsCount, BATCH_SIZE] at hcount hlt ⊢
    by_cases hpos : (prepareBulk (existingMapFor store b) b now records).operationsInBatch > 0
    · rw [if_pos hpos]
      simp only [List.length_append, List.length_singleton]
      omega
    · rw [if_neg hpos]
      simp only [List.append_nil]
      omega
  · rw [List.all_eq_true]
    intro bch hbch
    simp only [bulkBatches, List.mem_append] at hbch
    rcases hbch with hb | hb
    · simp only [decide_eq_true_eq]
      rw [hbatches bch hb]
    · simp only [decide_eq_true_eq]
      split at hb
      · rw [List.mem_singleton.mp hb, ← hops]
        omega
      · simp at hb

/-- C4: for a `success` row whose key hits the in-memory map, the loop marks
the row `updated`, stages the write under the existing document's id with the
existing `createdAt` preserved and a fresh `updatedAt`; for a `success` row
with no hit it stages the write under the newly derived id with both
timestamps fresh (and the caller's `brokerId` stamped). -/
theorem update_path_frame (m : KeyMap) (b : String) (now : Nat) (st : BulkState)
    (r : ProcessedRecord) (d : TaxQualification)
    (hs : r.status = .success) (hd : r.data = some d) :
    (∀ existing, mapGet m (bulkKey d) = some existing →
      ∃ upd r', allWrites (bulkStep m b now st r) = allWrites st ++ [(existing.id, upd)] ∧
        upd.id = existing.id ∧ upd.createdAt = existing.createdAt ∧ upd.updatedAt = now ∧
        upd.instrument = d.instrument ∧ upd.market = d.market ∧ upd.period = d.period ∧
        (bulkStep m b now st r).successRecords = st.successRecords ++ [r'] ∧
        r'.status = .updated ∧ r'.existingId = some existing.id ∧
        (bulkStep m b now st r).updated = st.updated + 1 ∧
        (bulkStep m b now st r).added = st.added) ∧
    (mapGet m (bulkKey d) = none →
      ∃ newd, allWrites (bulkStep m b now st r)
          = allWrites st ++ [(generateQualificationId d, newd)] ∧
        newd.id = generateQualificationId d ∧ newd.brokerId = b ∧
        newd.createdAt = now ∧ newd.updatedAt = now ∧
        (bulkStep m b now st r).successRecords = st.successRecords ++ [r] ∧
        (bulkStep m b now st r).added = st.added + 1 ∧
        (bulkStep m b now st r).updated = st.updated) := by
  have hse : ¬ r.status = .error := by rw [hs]; intro hcontra; cases hcontra
  constructor
  · intro existing hex
    have hstep : bulkStep m b now st r
        = pushOp { st with updated := st.updated + 1, successRecords := st.successRecords ++ [{ r with isDuplicate := true, existingId := some (existing.id), status := .updated }] }
            (existing.id, { d with id := existing.id, createdAt := existing.createdAt, updatedAt := now }) := by
      simp [bulkStep, hd, hse, hex]
    refine ⟨{ d with id := existing.id, createdAt := existing.createdAt, updatedAt := now },
      { r with isDuplicate := true, existingId := some (existing.id), status := .updated },
      ?_, rfl, rfl, rfl, rfl, rfl, rfl, ?_, rfl, rfl, ?_, ?_⟩
    · rw [hstep, pushOp_allWrites]
      simp [allWrites]
    · rw [hstep, pushOp_successRecords]
    · rw [hstep, pushOp_updated]
    · rw [hstep, pushOp_added]
  · intro hex
    have hstep : bulkStep m b now st r
        = pushOp { st with added := st.added + 1, successRecords := st.successRecords ++ [r] }
            (generateQualificationId d, { d with id := generateQualificationId d, brokerId := b, createdAt := now, updatedAt := now }) := by
      simp [bulkStep, hd, hse, hex]
    refine ⟨{ d with id := generateQualificationId d, brokerId := b, createdAt := now, updatedAt := now },
      ?_, rfl, rfl, rfl, rfl, ?_, ?_, ?_⟩
    · rw [hstep, pushOp_allWrites]
      simp [allWrites]
    · rw [hstep, pushOp_successRecords]
    · rw [hstep, pushOp_added]
    · rw [hstep, pushOp_updated]

/-- Witness for C4: both branches at concrete inputs — a row matching the
singleton map `mapOne` is staged under `doc1` keeping `createdAt = 7`, and the
same row against the empty map is staged under its derived id with fresh
timestamps. -/
theorem update_path_frame_witness :
    (∃ upd r', allWrites (bulkStep mapOne "b" 9 initState rowPlain)
        = allWrites initState ++ [(existingDoc.id, upd)] ∧
      upd.id = existingDoc.id ∧ upd.createdAt = existingDoc.createdAt ∧ upd.updatedAt = 9 ∧
      upd.instrument = tqPlain.instrument ∧ upd.market = tqPlain.market ∧
      upd.period = tqPlain.period ∧
      (bulkStep mapOne "b" 9 initState rowPlain).successRecords
        = initState.successRecords ++ [r'] ∧
      r'.status = .updated ∧ r'.existingId = some existingDoc.id ∧
      (bulkStep mapOne "b" 9 initState rowPlain).updated = initState.updated + 1 ∧
      (bulkStep mapOne "b" 9 initState rowPlain).added = initState.added) ∧
    (∃ newd, allWrites (bulkStep [] "b" 9 initState rowPlain)
        = allWrites initState ++ [(generateQualificationId tqPlain, newd)] ∧
      newd.id = generateQualificationId tqPlain ∧ newd.brokerId = "b" ∧
      newd.createdAt = 9 ∧ newd.updatedAt = 9 ∧
      (bulkStep [] "b" 9 initState rowPlain).successRecords
        = initState.successRecords ++ [rowPlain] ∧
      (bulkStep [] "b" 9 initState rowPlain).added = initState.added + 1 ∧
      (bulkStep [] "b" 9 initState rowPlain).updated = initState.updated) := by
  constructor
  · exact (update_path_frame mapOne "b" 9 initState rowPlain tqPlain rfl rfl).1 existingDoc rfl
  · exact (update_path_frame [] "b" 9 initState rowPlain tqPlain rfl rfl).2 rfl

theorem stagedOp_add (m : KeyMap) (b : String) (now : Nat) (r : ProcessedRecord)
    (d : TaxQualification) (hd : r.data = some d) (hs : ¬ r.status = .error)
    (hm : mapGet m (bulkKey d) = none) :
    stagedOp m b now r = some (generateQualificationId d,
      { d with id := generateQualificationId d, brokerId := b, createdAt := now, updatedAt := now }) := by
  simp [stagedOp, hd, hs, hm]

theorem addsOnly_added (m : KeyMap) (b : String) (now : Nat) :
    ∀ (records : List ProcessedRecord) (st : BulkState),
      (∀ r ∈ records, r.status = .success ∧ ∃ d, r.data = some d ∧ mapGet m (bulkKey d) = none) →
      (records.foldl (bulkStep m b now) st).added = st.added + records.length := by
  intro records
  induction records with
  | nil => intro st _; simp
  | cons r rs ih =>
    intro st h
    obtain ⟨hs, d, hd, hm⟩ := h r (List.mem_cons_self r rs)
    have hse : ¬ r.status = .error := by rw [hs]; intro hc; cases hc
    have hstep : (bulkStep m b now st r).added = st.added + 1 := by
      simp [bulkStep, hd, hse, hm, pushOp_added]
    rw [List.foldl_cons, ih (bulkStep m b now st r)
      (fun r' hr' => h r' (List.mem_cons_of_mem _ hr')), hstep, List.length_cons]
    omega

/-- C10: intra-upload duplicates are not merged — two rows with the same
broker and the same lookup key derive the same document id; when the keys of
an upload's rows are all absent from the pre-existing map, every row is
counted in `added` (the in-memory map is never updated inside the loop, so a
later duplicate still misses) and every row stages a write under its derived
id; concretely, two duplicate rows against an empty store report `added = 2`
yet create a single document, staging both writes under the same id. -/
theorem intra_batch_duplicates_not_merged :
    (∀ d₁ d₂ : TaxQualification, d₁.brokerId = d₂.brokerId → bulkKey d₁ = bulkKey d₂ →
      generateQualificationId d₁ = generateQualificationId d₂) ∧
    (∀ (m : KeyMap) (b : String) (now : Nat) (records : List ProcessedRecord),
      (∀ r ∈ records, r.status = .success ∧ ∃ d, r.data = some d ∧ mapGet m (bulkKey d) = none) →
      (prepareBulk m b now records).added = records.length ∧
      (∀ r ∈ records, ∀ d, r.data = some d →
        (generateQualificationId d, { d with id := generateQualificationId d, brokerId := b, createdAt := now, updatedAt := now })
          ∈ allWrites (prepareBulk m b now records))) ∧
    ((processBulkUpload [rowPlain, rowPlainDup] "b" [] 0).1.added = 2 ∧
     ((processBulkUpload [rowPlain, rowPlainDup] "b" [] 0).2).length = 1 ∧
     (allWrites (prepareBulk (existingMapFor [] "b") "b" 0 [rowPlain, rowPlainDup])).map Prod.fst
       = [generateQualificationId tqPlain, generateQualificationId tqPlain]) := by
  refine ⟨?_, ?_, by decide, by decide, by decide⟩
  · exact fun d₁ d₂ hb hk => generateQualificationId_congr hb hk
  · intro m b now records h
    constructor
    · have hadd := addsOnly_added m b now records initState h
      simpa [prepareBulk, initState] using hadd
    · intro r hr d hd
      obtain ⟨hs, d', hd', hm⟩ := h r hr
      rw [hd] at hd'
      injection hd' with hdd
      subst hdd
      have hse : ¬ r.status = .error := by rw [hs]; intro hc; cases hc
      have hop := stagedOp_add m b now r d hd hse hm
      simp only [prepareBulk]
      rw [foldl_allWrites]
      refine List.mem_append_right _ (List.mem_flatten.mpr
        ⟨(stagedOp m b now r).toList, List.mem_map.mpr ⟨r, hr, rfl⟩, ?_⟩)
      rw [hop]
      simp

/-- Witness for C10 at concrete inputs. -/
theorem intra_batch_duplicates_not_merged_witness :
    generateQualificationId tqPlain = generateQualificationId tqPlainDup ∧
    (prepareBulk [] "b" 0 [rowPlain, rowPlainDup]).added = 2 := by
  constructor
  · exact intra_batch_duplicates_not_merged.1 tqPlain tqPlainDup rfl rfl
  · exact (intra_batch_duplicates_not_merged.2.1 [] "b" 0 [rowPlain, rowPlainDup] (by
      intro r hr
      simp only [List.mem_cons, List.not_mem_nil, or_false] at hr
      rcases hr with rfl | rfl
      · exact ⟨rfl, tqPlain, rfl, rfl⟩
      · exact ⟨rfl, tqPlainDup, rfl, rfl⟩)).1

theorem mapGet_insert (m : KeyMap) (k' : String) (v : TaxQualification) (k : String) :
    mapGet (mapInsert m k' v) k = if k' = k then some v else mapGet m k := by
  induction m with
  | nil => simp [mapInsert, mapGet]
  | cons p m ih =>
    simp only [mapInsert]
    by_cases hp : p.1 = k'
    · rw [if_pos hp]
      by_cases hk : k' = k
      · simp only [mapGet, if_pos hk]
      · have hpk : ¬ p.1 = k := by rw [hp]; exact hk
        simp only [mapGet, if_neg hk, if_neg hpk]
    · rw [if_neg hp]
      by_cases hpk : p.1 = k
      · have hk : ¬ k' = k := fun hc => hp (by rw [hpk, hc])
        simp only [mapGet, if_pos hpk, if_neg hk]
      · simp only [mapGet, if_neg hpk, ih]

theorem foldl_insert_get_isSome (docs : List TaxQualification) :
    ∀ (m : KeyMap) (k : String),
      ((∃ d ∈ docs, bulkKey d = k) ∨ (mapGet m k).isSome = true) →
      (mapGet (docs.foldl (fun m d => mapInsert m (bulkKey d) d) m) k).isSome = true := by
  induction docs with
  | nil =>
    intro m k h
    rcases h with ⟨d, hd, _⟩ | h
    · simp at hd
    · exact h
  | cons d ds ih =>
    intro m k h
    rw [List.foldl_cons]
    apply ih
    rcases h with ⟨d', hd', hk⟩ | h
    · rcases List.mem_cons.mp hd' with rfl | hmem
      · right
        rw [mapGet_insert, if_pos hk]
        rfl
      · left
        exact ⟨d', hmem, hk⟩
    · right
      rw [mapGet_insert]
      by_cases hbk : bulkKey d = k
      · rw [if_pos hbk]
        rfl
      · rw [if_neg hbk]
        exact h

theorem foldl_insert_get_mem (docs : List TaxQualification) :
    ∀ (m : KeyMap) (k : String) (v : TaxQualification),
      mapGet (docs.foldl (fun m d => mapInsert m (bulkKey d) d) m) k = some v →
      (v ∈ docs ∧ bulkKey v = k) ∨ mapGet m k = some v := by
  induction docs with
  | nil =>
    intro m k v h
    right
    exact h
  | cons d ds ih =>
    intro m k v h
    rw [List.foldl_cons] at h
    rcases ih _ _ _ h with ⟨hv, hk⟩ | h2
    · left
      exact ⟨List.mem_cons_of_mem _ hv, hk⟩
    · rw [mapGet_insert] at h2
      by_cases hbk : bulkKey d = k
      · rw [if_pos hbk] at h2
        injection h2 with hv
        left
        refine ⟨?_, ?_⟩
        · rw [← hv]
          exact List.mem_cons_self d ds
        · rw [← hv]
          exact hbk
      · rw [if_neg hbk] at h2
        right
        exact h2

theorem storeGet_set (s : Store) (id : String) (d : TaxQualification) (id' : String) :
    storeGet (storeSet s id d) id' = if id = id' then some d else storeGet s id' := by
  induction s with
  | nil => simp [storeSet, storeGet]
  | cons p s ih =>
    simp only [storeSet]
    by_cases hp : p.1 = id
    · rw [if_pos hp]
      by_cases hid : id = id'
      · simp only [storeGet, if_pos hid]
      · have hp' : ¬ p.1 = id' := by rw [hp]; exact hid
        simp only [storeGet, if_neg hid, if_neg hp']
    · rw [if_neg hp]
      by_cases hp' : p.1 = id'
      · have hid : ¬ id = id' := fun hc => hp (by rw [hc]; exact hp')
        simp only [storeGet, if_pos hp', if_neg hid]
      · simp only [storeGet, if_neg hp', ih]

theorem storeGet_mem (s : Store) (id : String) (v : TaxQualification)
    (h : storeGet s id = some v) : (id, v) ∈ s := by
  induction s with
  | nil => simp [storeGet] at h
  | cons p s ih =>
    simp only [storeGet] at h
    by_cases hp : p.1 = id
    · rw [if_pos hp] at h
      injection h with hv
      refine List.mem_cons.mpr (Or.inl ?_)
      rw [← hp, ← hv]
    · rw [if_neg hp] at h
      exact List.mem_cons_of_mem _ (ih h)

theorem applyWrites_untouched (ws : List WriteOp) :
    ∀ (s : Store) (id : String), (∀ w ∈ ws, w.1 ≠ id) →
      storeGet (ws.foldl (fun s op => storeSet s op.1 op.2) s) id = storeGet s id := by
  induction ws with
  | nil => intro s id _; rfl
  | cons w ws ih =>
    intro s id h
    rw [List.foldl_cons, ih _ _ (fun w' hw' => h w' (List.mem_cons_of_mem _ hw')), storeGet_set,
      if_neg (h w (List.mem_cons_self w ws))]

theorem applyWrites_get (ws : List WriteOp) :
    ∀ (s : Store) (id : String), (∃ w ∈ ws, w.1 = id) →
      ∃ v, storeGet (ws.foldl (fun s op => storeSet s op.1 op.2) s) id = some v ∧ (id, v) ∈ ws := by
  induction ws with
  | nil =>
    intro s id h
    rcases h with ⟨w, hw, _⟩
    simp at hw
  | cons w ws ih =>
    intro s id h
    by_cases hrest : ∃ w' ∈ ws, w'.1 = id
    · obtain ⟨v, hv, hmem⟩ := ih (storeSet s w.1 w.2) id hrest
      exact ⟨v, by rw [List.foldl_cons]; exact hv, List.mem_cons_of_mem _ hmem⟩
    · have hw1 : w.1 = id := by
        rcases h with ⟨w', hw', he⟩
        rcases List.mem_cons.mp hw' with rfl | hmem
        · exact he
        · exact absurd ⟨w', hmem, he⟩ hrest
      have hnone : ∀ w' ∈ ws, w'.1 ≠ id := fun w' hw' he => hrest ⟨w', hw', he⟩
      refine ⟨w.2, ?_, ?_⟩
      · rw [List.foldl_cons, applyWrites_untouched ws _ id hnone, storeGet_set, if_pos hw1]
      · refine List.mem_cons.mpr (Or.inl ?_)
        rw [← hw1]

theorem storeSet_keys (s : Store) (id : String) (d : TaxQualification)
    (h : id ∈ s.map Prod.fst) : (storeSet s id d).map Prod.fst = s.map Prod.fst := by
  induction s with
  | nil => simp at h
  | cons p s ih =>
    simp only [List.map_cons, List.mem_cons] at h
    simp only [storeSet]
    by_cases hp : p.1 = id
    · rw [if_pos hp]
      simp [hp]
    · rw [if_neg hp]
      simp only [List.map_cons]
      rcases h with h | h
      · exact absurd h.symm hp
      · rw [ih h]

theorem applyWrites_keys (ws : List WriteOp) :
    ∀ (s : Store), (∀ w ∈ ws, w.1 ∈ s.map Prod.fst) →
      (ws.foldl (fun s op => storeSet s op.1 op.2) s).map Prod.fst = s.map Prod.fst := by
  induction ws with
  | nil => intro s _; rfl
  | cons w ws ih =>
    intro s h
    rw [List.foldl_cons]
    have hk := storeSet_keys s w.1 w.2 (h w (List.mem_cons_self w ws))
    have hrest := ih (storeSet s w.1 w.2)
      (fun w' hw' => by rw [hk]; exact h w' (List.mem_cons_of_mem _ hw'))
    rw [hrest, hk]

theorem mem_snapshot (s : Store) (b : String) (id : String) (v : TaxQualification)
    (h : storeGet s id = some v) (hb : v.brokerId = b) :
    { v with id := id } ∈ snapshot s b := by
  have hmem : (id, v) ∈ s := storeGet_mem s id v h
  simp only [snapshot]
  exact List.mem_map.mpr ⟨(id, v), List.mem_filter.mpr ⟨hmem, by simp [hb]⟩, rfl⟩

theorem snapshot_mem_store (s : Store) (b : String) (v : TaxQualification)
    (h : v ∈ snapshot s b) : v.id ∈ s.map Prod.fst := by
  simp only [snapshot, List.mem_map] at h
  obtain ⟨p, hp, rfl⟩ := h
  exact List.mem_map.mpr ⟨p, (List.mem_filter.mp hp).1, rfl⟩

theorem bulkBatches_flatten (st : BulkState) (h : st.operationsInBatch = st.currentBatch.length) :
    (bulkBatches st).flatten = allWrites st := by
  simp only [bulkBatches]
  by_cases hpos : st.operationsInBatch > 0
  · rw [if_pos hpos]
    simp [allWrites]
  · rw [if_neg hpos]
    have hz : st.currentBatch.length = 0 := by omega
    have hcb : st.currentBatch = [] := List.length_eq_zero.mp hz
    simp [allWrites, hcb]

theorem updatesOnly (m : KeyMap) (b : String) (now : Nat) :
    ∀ (records : List ProcessedRecord) (st : BulkState),
      (∀ r ∈ records, r.status = .success ∧
        ∃ d, r.data = some d ∧ (mapGet m (bulkKey d)).isSome = true) →
      (records.foldl (bulkStep m b now) st).added = st.added ∧
      (records.foldl (bulkStep m b now) st).updated = st.updated + records.length ∧
      (records.foldl (bulkStep m b now) st).successRecords.length
        = st.successRecords.length + records.length ∧
      (∀ r' ∈ (records.foldl (bulkStep m b now) st).successRecords,
        r' ∈ st.successRecords ∨ r'.status = .updated) ∧
      (∀ w ∈ allWrites (records.foldl (bulkStep m b now) st),
        w ∈ allWrites st ∨ ∃ k existing, mapGet m k = some existing ∧ w.1 = existing.id) := by
  intro records
  induction records with
  | nil =>
    intro st _
    exact ⟨rfl, by simp, by simp, fun r' hr' => Or.inl hr', fun w hw => Or.inl hw⟩
  | cons r rs ih =>
    intro st h
    obtain ⟨hs, d, hd, hm⟩ := h r (List.mem_cons_self r rs)
    obtain ⟨existing, hex⟩ := Option.isSome_iff_exists.mp hm
    have hse : ¬ r.status = .error := by rw [hs]; intro hc; cases hc
    have hstep : bulkStep m b now st r
        = pushOp { st with updated := st.updated + 1, successRecords := st.successRecords ++ [{ r with isDuplicate := true, existingId := some (existing.id), status := .updated }] }
            (existing.id, { d with id := existing.id, createdAt := existing.createdAt, updatedAt := now }) := by
      simp [bulkStep, hd, hse, hex]
    have hAdded : (bulkStep m b now st r).added = st.added := by
      rw [hstep, pushOp_added]
    have hUpd : (bulkStep m b now st r).updated = st.updated + 1 := by
      rw [hstep, pushOp_updated]
    have hSucc : (bulkStep m b now st r).successRecords
        = st.successRecords ++ [{ r with isDuplicate := true, existingId := some (existing.id), status := .updated }] := by
      rw [hstep, pushOp_successRecords]
    have hAW : allWrites (bulkStep m b now st r)
        = allWrites st ++ [(existing.id, { d with id := existing.id, createdAt := existing.createdAt, updatedAt := now })] := by
      rw [hstep, pushOp_allWrites]
      simp [allWrites]
    have hrec := ih (bulkStep m b now st r) (fun r' hr' => h r' (List.mem_cons_of_mem _ hr'))
    refine ⟨?_, ?_, ?_, ?_, ?_⟩
    · rw [List.foldl_cons, hrec.1, hAdded]
    · rw [List.foldl_cons, hrec.2.1, hUpd, List.length_cons]
      omega
    · rw [List.foldl_cons, hrec.2.2.1, hSucc, List.length_append, List.length_cons]
      simp
      omega
    · intro r' hr'
      rw [List.foldl_cons] at hr'
      rcases hrec.2.2.2.1 r' hr' with hmem | hupd
      · rw [hSucc] at hmem
        rcases List.mem_append.mp hmem with hmem | hmem
        · exact Or.inl hmem
        · right
          rw [List.mem_singleton.mp hmem]
      · exact Or.inr hupd
    · intro w hw
      rw [List.foldl_cons] at hw
      rcases hrec.2.2.2.2 w hw with hmem | hexi
      · rw [hAW] at hmem
        rcases List.mem_append.mp hmem with hmem | hmem
        · exact Or.inl hmem
        · right
          rw [List.mem_singleton.mp hmem]
          exact ⟨bulkKey d, existing, hex, rfl⟩
      · exact Or.inr hexi

/-- C1 (amended): starting from a store with no records for the broker,
running `processBulkUpload` twice on the same all-valid rows for that broker
classifies every row `updated` on the second run and reports `added = 0`,
provided no two rows whose lookup keys differ derive the same document id
under the id normalization. (Without that proviso the claim fails: see the
counterexample, where instruments `x y` and `x-y` produce distinct lookup
keys but one shared document id.) -/
theorem bulk_upload_idempotent_amended
    (records : List ProcessedRecord) (b : String) (store : Store) (t₁ t₂ : Nat)
    (hstore : ∀ p ∈ store, p.2.brokerId ≠ b)
    (hrec : ∀ r ∈ records, r.status = .success ∧ ∃ d, r.data = some d ∧ d.brokerId = b)
    (hids : ∀ r₁ ∈ records, ∀ r₂ ∈ records, ∀ d₁ d₂, r₁.data = some d₁ → r₂.data = some d₂ →
      generateQualificationId d₁ = generateQualificationId d₂ → bulkKey d₁ = bulkKey d₂) :
    (processBulkUpload records b (processBulkUpload records b store t₁).2 t₂).1.added = 0 ∧
    (processBulkUpload records b (processBulkUpload records b store t₁).2 t₂).1.updated
      = records.length ∧
    (∀ r' ∈ (processBulkUpload records b (processBulkUpload records b store t₁).2 t₂).1.successRecords,
      r'.status = .updated) ∧
    (processBulkUpload records b (processBulkUpload records b store t₁).2 t₂).1.successRecords.length
      = records.length ∧
    ((processBulkUpload records b (processBulkUpload records b store t₁).2 t₂).2).length
      = ((processBulkUpload records b store t₁).2).length := by
  have hm1 : existingMapFor store b = [] := by
    have hfil : store.filter (fun p => decide (p.2.brokerId = b)) = [] := by
      rw [List.filter_eq_nil_iff]
      intro p hp
      simp [hstore p hp]
    show (snapshot store b).foldl (fun m d => mapInsert m (bulkKey d) d) [] = []
    rw [show snapshot store b = [] from by simp only [snapshot]; rw [hfil]; rfl]
    rfl
  have hinv₁ := foldl_inv (existingMapFor store b) b t₁ records initState initState_inv.1
  have hops₁ : (prepareBulk (existingMapFor store b) b t₁ records).operationsInBatch
      = (prepareBulk (existingMapFor store b) b t₁ records).currentBatch.length := hinv₁.1.1
  have hflat₁ := bulkBatches_flatten _ hops₁
  have hwchar : ∀ w ∈ allWrites (prepareBulk (existingMapFor store b) b t₁ records),
      ∃ r ∈ records, ∃ d, r.data = some d ∧ d.brokerId = b ∧
        w = (generateQualificationId d, { d with id := generateQualificationId d, brokerId := b, createdAt := t₁, updatedAt := t₁ }) := by
    intro w hw
    simp only [prepareBulk] at hw
    rw [foldl_allWrites, show allWrites initState = [] from rfl, List.nil_append] at hw
    obtain ⟨l, hl, hwl⟩ := List.mem_flatten.mp hw
    obtain ⟨r, hr, rfl⟩ := List.mem_map.mp hl
    obtain ⟨hs, d, hd, hbd⟩ := hrec r hr
    have hse : ¬ r.status = .error := by rw [hs]; intro hc; cases hc
    rw [stagedOp_add (existingMapFor store b) b t₁ r d hd hse (by rw [hm1]; rfl)] at hwl
    rw [Option.toList_some, List.mem_singleton] at hwl
    exact ⟨r, hr, d, hd, hbd, hwl⟩
  have hwpres : ∀ r ∈ records, ∀ d, r.data = some d →
      (generateQualificationId d, { d with id := generateQualificationId d, brokerId := b, createdAt := t₁, updatedAt := t₁ })
        ∈ allWrites (prepareBulk (existingMapFor store b) b t₁ records) := by
    intro r hr d hd
    obtain ⟨hs, d', hd', _⟩ := hrec r hr
    rw [hd] at hd'
    injection hd' with hdd
    subst hdd
    have hse : ¬ r.status = .error := by rw [hs]; intro hc; cases hc
    have hop := stagedOp_add (existingMapFor store b) b t₁ r d hd hse (by rw [hm1]; rfl)
    simp only [prepareBulk]
    rw [foldl_allWrites]
    refine List.mem_append_right _ (List.mem_flatten.mpr
      ⟨(stagedOp (existingMapFor store b) b t₁ r).toList, List.mem_map.mpr ⟨r, hr, rfl⟩, ?_⟩)
    rw [hop]
    simp
  have hkey : ∀ r ∈ records, ∀ d, r.data = some d →
      (mapGet (existingMapFor (processBulkUpload records b store t₁).2 b) (bulkKey d)).isSome = true := by
    intro r hr d hd
    have hin := hwpres r hr d hd
    obtain ⟨v, hv, hvmem⟩ := applyWrites_get
      (allWrites (prepareBulk (existingMapFor store b) b t₁ records))
      store (generateQualificationId d) ⟨_, hin, rfl⟩
    obtain ⟨r', hr', d', hd', hb', hw'⟩ := hwchar _ hvmem
    have hfst : generateQualificationId d' = generateQualificationId d :=
      (congrArg Prod.fst hw').symm
    have hsnd : v = { d' with id := generateQualificationId d', brokerId := b, createdAt := t₁, updatedAt := t₁ } :=
      congrArg Prod.snd hw'
    have hkk : bulkKey d' = bulkKey d := hids r' hr' r hr d' d hd' hd hfst
    have hvb : v.brokerId = b := by rw [hsnd]
    have hvk : bulkKey v = bulkKey d := by
      rw [hsnd]
      exact hkk
    have hdoc : { v with id := generateQualificationId d }
        ∈ snapshot (processBulkUpload records b store t₁).2 b := by
      apply mem_snapshot _ _ _ _ ?_ hvb
      show storeGet ((bulkBatches (prepareBulk (existingMapFor store b) b t₁ records)).flatten.foldl
        (fun s op => storeSet s op.1 op.2) store) (generateQualificationId d) = some v
      rw [hflat₁]
      exact hv
    show (mapGet ((snapshot (processBulkUpload records b store t₁).2 b).foldl
      (fun m d => mapInsert m (bulkKey d) d) []) (bulkKey d)).isSome = true
    apply foldl_insert_get_isSome
    left
    exact ⟨{ v with id := generateQualificationId d }, hdoc, hvk⟩
  have hupd := updatesOnly (existingMapFor (processBulkUpload records b store t₁).2 b) b t₂
    records initState
    (fun r hr => by
      obtain ⟨hs, d, hd, _⟩ := hrec r hr
      exact ⟨hs, d, hd, hkey r hr d hd⟩)
  refine ⟨?_, ?_, ?_, ?_, ?_⟩
  · exact hupd.1
  · have h2 := hupd.2.1
    simpa [initState] using h2
  · intro r' hr'
    rcases hupd.2.2.2.1 r' hr' with hmem | hupd'
    · simp [initState] at hmem
    · exact hupd'
  · have h4 := hupd.2.2.1
    simpa [initState] using h4
  · have hinv₂ := foldl_inv (existingMapFor (processBulkUpload records b store t₁).2 b) b t₂
      records initState initState_inv.1
    have hops₂ : (prepareBulk (existingMapFor (processBulkUpload records b store t₁).2 b) b t₂ records).operationsInBatch
        = (prepareBulk (existingMapFor (processBulkUpload records b store t₁).2 b) b t₂ records).currentBatch.length :=
      hinv₂.1.1
    have hflat₂ := bulkBatches_flatten _ hops₂
    have hkeys : ∀ w ∈ allWrites (prepareBulk (existingMapFor (processBulkUpload records b store t₁).2 b) b t₂ records),
        w.1 ∈ ((processBulkUpload records b store t₁).2).map Prod.fst := by
      intro w hw
      rcases hupd.2.2.2.2 w hw with hmem | ⟨k, existing, hex, hw1⟩
      · rw [show allWrites initState = [] from rfl] at hmem
        simp at hmem
      · have hmm := foldl_insert_get_mem (snapshot (processBulkUpload records b store t₁).2 b)
          [] k existing hex
        rcases hmm with ⟨hmem2, _⟩ | hbase
        · rw [hw1]
          exact snapshot_mem_store _ _ _ hmem2
        · simp [mapGet] at hbase
    have hkeq := applyWrites_keys
      (allWrites (prepareBulk (existingMapFor (processBulkUpload records b store t₁).2 b) b t₂ records))
      (processBulkUpload records b store t₁).2 hkeys
    have hstore2 : (processBulkUpload records b (processBulkUpload records b store t₁).2 t₂).2
        = (allWrites (prepareBulk (existingMapFor (processBulkUpload records b store t₁).2 b) b t₂ records)).foldl
            (fun s op => storeSet s op.1 op.2) (processBulkUpload records b store t₁).2 := by
      show ((bulkBatches (prepareBulk (existingMapFor (processBulkUpload records b store t₁).2 b) b t₂ records)).flatten.foldl
        (fun s op => storeSet s op.1 op.2) (processBulkUpload records b store t₁).2) = _
      rw [hflat₂]
    rw [hstore2]
    calc ((allWrites (prepareBulk (existingMapFor (processBulkUpload records b store t₁).2 b) b t₂ records)).foldl
            (fun s op => storeSet s op.1 op.2) (processBulkUpload records b store t₁).2).length
        = (((allWrites (prepareBulk (existingMapFor (processBulkUpload records b store t₁).2 b) b t₂ records)).foldl
            (fun s op => storeSet s op.1 op.2) (processBulkUpload records b store t₁).2).map Prod.fst).length := by
          rw [List.length_map]
      _ = (((processBulkUpload records b store t₁).2).map Prod.fst).length := by rw [hkeq]
      _ = ((processBulkUpload records b store t₁).2).length := by rw [List.length_map]

/-- C1 counterexample: two valid rows for broker `b` whose instruments are
`x y` and `x-y` have distinct lookup keys but derive the same document id, so
the first run's second write clobbers the first document; on the second run
the `x y` row misses the map and is classified added — `added = 1`, not `0`,
even though every row validated and belongs to the broker. -/
theorem bulk_upload_not_idempotent :
    (processBulkUpload [rowSpace, rowHyphen] "b"
        (processBulkUpload [rowSpace, rowHyphen] "b" [] 0).2 1).1.added = 1 ∧
    rowSpace.status = .success ∧ rowSpace.data = some tqSpace ∧ tqSpace.brokerId = "b" ∧
    rowHyphen.status = .success ∧ rowHyphen.data = some tqHyphen ∧ tqHyphen.brokerId = "b" ∧
    bulkKey tqSpace ≠ bulkKey tqHyphen ∧
    generateQualificationId tqSpace = generateQualificationId tqHyphen ∧
    ((processBulkUpload [rowSpace, rowHyphen] "b" [] 0).2).length = 1 := by
  refine ⟨by decide, rfl, rfl, rfl, rfl, rfl, rfl, by decide, by decide, by decide⟩

/-- Witness for C1 (amended) at a concrete single-row upload. -/
theorem bulk_upload_idempotent_amended_witness :
    (processBulkUpload [rowPlain] "b"
        (processBulkUpload [rowPlain] "b" [] 0).2 1).1.added = 0 ∧
    (processBulkUpload [rowPlain] "b"
        (processBulkUpload [rowPlain] "b" [] 0).2 1).1.updated = 1 := by
  have h := bulk_upload_idempotent_amended [rowPlain] "b" [] 0 1
    (by intro p hp; simp at hp)
    (by
      intro r hr
      simp only [List.mem_singleton] at hr
      subst hr
      exact ⟨rfl, tqPlain, rfl, rfl⟩)
    (by
      intro r₁ h₁ r₂ h₂ d₁ d₂ hd₁ hd₂ _
      simp only [List.mem_singleton] at h₁ h₂
      subst h₁
      subst h₂
      rw [hd₁] at hd₂
      injection hd₂ with hdd
      rw [hdd])
  exact ⟨h.1, by rw [h.2.1]; rfl⟩
